import Mathlib

/-!
Verification of the DBPF recompression tool (dbpf.h and dbpf-recompress.cpp).

Files are modelled as `List Nat` of byte values; an element of a buffer models a
C++ `unsigned char`, so every read reduces the element modulo 256.  Machine
`uint` arithmetic is modelled on `Nat`, with `% UMOD` inserted exactly where the
C++ computes a 32-bit expression whose overflow is observable (bounds checks,
serialized fields).  Fallible code (early `return Package{false}`) is modelled
with `Option`.  The QFS codec (`qfs.h`) is not part of the sources; the two
functions `qfs_compress` and `qfs_decompress` are modelled from the
specification where a claim needs them, and the wrapper functions take them as
parameters, mirroring the call sites.
-/

namespace Dbpf

/-- The 32-bit modulus used for C++ `uint` arithmetic. -/
def UMOD : Nat := 4294967296

/-- Read one byte of a buffer; buffers hold `unsigned char` values, modelled by
reducing modulo 256.  Out-of-range reads yield 0 (in the source they are
guarded by prior bounds checks). -/
def byteAt (buf : List Nat) (i : Nat) : Nat :=
  buf.getD i 0 % 256

/-- Little-endian 32-bit read, from `getInt` in dbpf.h (reads bytes
`pos .. pos+3`). -/
def getInt (buf : List Nat) (pos : Nat) : Nat :=
  byteAt buf pos + 256 * byteAt buf (pos + 1) + 65536 * byteAt buf (pos + 2) +
    16777216 * byteAt buf (pos + 3)

/-- Little-endian 32-bit encoding of an integer, from `putInt` in dbpf.h
(each stored byte is the C++ truncation of `n >> 8k` to `unsigned char`). -/
def encodeU32 (n : Nat) : List Nat :=
  [n % 256, n / 256 % 256, n / 65536 % 256, n / 16777216 % 256]

/-- Big-endian 24-bit encoding, used by the codec framing header for the
uncompressed size. -/
def encodeU24BE (n : Nat) : List Nat :=
  [n / 65536 % 256, n / 256 % 256, n % 256]

/-- Read the uncompressed size from a compression framing header: bytes 6..8
as a big-endian 24-bit integer, from `getUncompressedSize` in dbpf.h. -/
def getUncompressedSize (buf : List Nat) : Nat :=
  65536 * byteAt buf 6 + 256 * byteAt buf 7 + byteAt buf 8

/-- Bounds-checked counterpart of `getUncompressedSize`: `none` when one of the
three unchecked reads (bytes 6, 7, 8) would be out of bounds. -/
def getUncompressedSizeChecked (buf : List Nat) : Option Nat := do
  let b6 ← buf[6]?
  let b7 ← buf[7]?
  let b8 ← buf[8]?
  pure (65536 * (b6 % 256) + 256 * (b7 % 256) + b8 % 256)

/-- Read `size` bytes of a file starting at `pos`, from `readFile` in dbpf.h:
the destination buffer is zero-initialized, so bytes past the end of the file
stay 0 and the result always has length `size`. -/
def readFile (file : List Nat) (pos size : Nat) : List Nat :=
  (file.drop pos ++ List.replicate size 0).take size

/-- Overwrite part of a buffer in place (models `seekp` followed by a write,
and `copy` into a preallocated buffer). -/
def writeAt (f : List Nat) (pos : Nat) (data : List Nat) : List Nat :=
  f.take pos ++ data ++ f.drop (pos + data.length)

/-- File size as the C++ `uint` returned by `getFileSize`. -/
def getFileSize (file : List Nat) : Nat :=
  file.length % UMOD

/-- DBPF magic word, little-endian value of the bytes "DBPF". -/
def DBPF_MAGIC : Nat := 0x46504244

/-- Compressor signature word, little-endian value of the bytes "BRG5". -/
def SIGNATURE : Nat := 0x35475242

/-- Resource type id of the directory of compressed files (CLST). -/
def CLST_TYPE : Nat := 0xE86B1EEF

/-- Compression mode, from the `Mode` enum in dbpf.h. -/
inductive Mode where
  | RECOMPRESS
  | DECOMPRESS
  | SKIP
deriving DecidableEq, Repr

export Mode (RECOMPRESS DECOMPRESS SKIP)

/-- Package header, from `struct Header` in dbpf.h. -/
structure Header where
  majorVersion : Nat
  minorVersion : Nat
  majorUserVersion : Nat
  minorUserVersion : Nat
  flags : Nat
  createdDate : Nat
  modifiedDate : Nat
  indexMajorVersion : Nat
  indexEntryCount : Nat
  indexLocation : Nat
  indexSize : Nat
  holeIndexEntryCount : Nat
  holeIndexLocation : Nat
  holeIndexSize : Nat
  indexMinorVersion : Nat
  remainder : List Nat
deriving DecidableEq, Repr

/-- One entry (file) inside the package, from `struct Entry` in dbpf.h.
The C++ field `instance` is a Lean keyword and is named `inst` here. -/
structure Entry where
  type : Nat
  group : Nat
  inst : Nat
  resource : Nat
  location : Nat
  size : Nat
  uncompressedSize : Nat := 0
  compressed : Bool := false
  repeated : Bool := false
deriving DecidableEq, Repr

/-- A hole in the package file, from `struct Hole` in dbpf.h. -/
structure Hole where
  location : Nat
  size : Nat
deriving DecidableEq, Repr

/-- An entry of the directory of compressed files, from
`struct CompressedEntry` in dbpf.h. -/
structure CompressedEntry where
  type : Nat
  group : Nat
  inst : Nat
  resource : Nat
  uncompressedSize : Nat
deriving DecidableEq, Repr

/-- TGIR equality on two entries, from `equalFunction` in dbpf.h. -/
def tgirEqE (a b : Entry) : Bool :=
  a.type == b.type && a.group == b.group && a.inst == b.inst && a.resource == b.resource

/-- TGIR equality between a CLST record and an entry (the `find` calls build a
`CompressedEntry` key from the entry TGIR). -/
def tgirEqCE (c : CompressedEntry) (e : Entry) : Bool :=
  c.type == e.type && c.group == e.group && c.inst == e.inst && c.resource == e.resource

/-- One package file, from `struct Package` in dbpf.h.  The C++
`unordered_set` of compressed entries is modelled as a list whose `find?` has
the same first-inserted lookup semantics. -/
structure Package where
  unpacked : Bool := true
  signature_in_package : Bool := false
  header : Header
  entries : List Entry
  holes : List Hole
  compressedEntries : List CompressedEntry
deriving DecidableEq, Repr

/-! ## Entry transforms (compressEntry, decompressEntry, recompressEntry)

The codec functions from the missing qfs.h are parameters:
`qc src dstLen` models `qfs_compress(src.data(), src.size(), dst.data(),
dstLen)` returning `some` output on a positive length, and `qd src dstLen`
models `qfs_decompress(src.data(), src.size(), dst.data(), dstLen)` returning
`some` output on success. -/

/-- Codec compression function type: input payload and destination capacity. -/
abbrev QfsCompress := List Nat → Nat → Option (List Nat)

/-- Codec decompression function type: compressed payload (with framing
header) and expected output length. -/
abbrev QfsDecompress := List Nat → Nat → Option (List Nat)

/-- Compress one entry, from `compressEntry` in dbpf.h: only entries that are
neither compressed nor repeated are compressed, into a buffer one byte shorter
than the content (the result must be smaller than the original). -/
def compressEntry (qc : QfsCompress) (entry : Entry) (content : List Nat) :
    Entry × List Nat :=
  if entry.compressed = false ∧ entry.repeated = false then
    match qc content (content.length - 1) with
    | some newContent => ({ entry with compressed := true }, newContent)
    | none => (entry, content)
  else
    (entry, content)

/-- Decompress one entry, from `decompressEntry` in dbpf.h: on codec failure
the entry and its (still compressed) content are returned unchanged. -/
def decompressEntry (qd : QfsDecompress) (entry : Entry) (content : List Nat) :
    Entry × List Nat :=
  if entry.compressed then
    match qd content (getUncompressedSize content) with
    | some newContent => ({ entry with compressed := false }, newContent)
    | none => (entry, content)
  else
    (entry, content)

/-- Bounds-checked counterpart of `decompressEntry`: `none` when the
unchecked reads of `getUncompressedSize` would be out of bounds. -/
def decompressEntryChecked (qd : QfsDecompress) (entry : Entry)
    (content : List Nat) : Option (Entry × List Nat) :=
  if entry.compressed then
    match getUncompressedSizeChecked content with
    | none => none
    | some u =>
      match qd content u with
      | some newContent => some ({ entry with compressed := false }, newContent)
      | none => some (entry, content)
  else
    some (entry, content)

/-- Recompress one entry, from `recompressEntry` in dbpf.h: decompress, then
compress, and keep the result only when it is strictly smaller; otherwise the
compressed flag is restored and the original bytes are returned. -/
def recompressEntry (qc : QfsCompress) (qd : QfsDecompress) (entry : Entry)
    (content : List Nat) : Entry × List Nat :=
  let wasCompressed := entry.compressed
  let dc := decompressEntry qd entry content
  let cc := compressEntry qc dc.1 dc.2
  if cc.2.length < content.length then
    cc
  else
    ({ cc.1 with compressed := wasCompressed }, content)

/-! ## Archive reader (getPackage)

`getPackage` in dbpf.h returns `Package{false}` on any parse rejection; this
is modelled as `none`.  A `some` result always has `unpacked = true`. -/

/-- Parse the 96-byte header buffer into a `Header` (the sequential `getInt`
calls of `getPackage` read at fixed offsets 4, 8, ..., 60; the remainder is
bytes 64..95). -/
def parseHeader (buffer : List Nat) : Header where
  majorVersion := getInt buffer 4
  minorVersion := getInt buffer 8
  majorUserVersion := getInt buffer 12
  minorUserVersion := getInt buffer 16
  flags := getInt buffer 20
  createdDate := getInt buffer 24
  modifiedDate := getInt buffer 28
  indexMajorVersion := getInt buffer 32
  indexEntryCount := getInt buffer 36
  indexLocation := getInt buffer 40
  indexSize := getInt buffer 44
  holeIndexEntryCount := getInt buffer 48
  holeIndexLocation := getInt buffer 52
  holeIndexSize := getInt buffer 56
  indexMinorVersion := getInt buffer 60
  remainder := buffer.drop 64

/-- The version and bounds checks of `getPackage`, in source order.  All
arithmetic is C++ `uint` arithmetic. -/
def headerChecksOk (fileSize magic : Nat) (hd : Header) : Bool :=
  magic == DBPF_MAGIC &&
  hd.majorVersion == 1 &&
  (hd.minorVersion == 0 || hd.minorVersion == 1 || hd.minorVersion == 2) &&
  hd.indexMajorVersion == 7 &&
  hd.indexMinorVersion ≤ 2 &&
  !(hd.indexLocation > fileSize ||
    (hd.indexLocation + hd.indexSize) % UMOD > fileSize) &&
  (if hd.indexMinorVersion == 2 then hd.indexEntryCount * 4 % UMOD * 6 % UMOD
   else hd.indexEntryCount * 4 % UMOD * 5 % UMOD) ≤ hd.indexSize &&
  !(hd.holeIndexLocation > fileSize ||
    (hd.holeIndexLocation + hd.holeIndexSize) % UMOD > fileSize) &&
  hd.holeIndexEntryCount * 8 % UMOD == hd.holeIndexSize

/-- Parse the hole index buffer: `count` records of two `uint` fields each,
read sequentially. -/
def parseHoles (buf : List Nat) : Nat → List Hole
  | 0 => []
  | n + 1 => ⟨getInt buf 0, getInt buf 4⟩ :: parseHoles (buf.drop 8) n

/-- Signature detection of `getPackage`: with exactly one hole of size 8, an
out-of-bounds hole rejects the package (`none`); otherwise the flag records
whether the hole holds the signature word and the current file size. -/
def checkSignature (file : List Nat) (fileSize : Nat) (hd : Header)
    (holes : List Hole) : Option Bool :=
  if hd.holeIndexEntryCount = 1 ∧ (holes.headD ⟨0, 0⟩).size = 8 then
    let hole := holes.headD ⟨0, 0⟩
    if hole.location > fileSize ∨ (hole.location + hole.size) % UMOD > fileSize then
      none
    else
      let buffer := readFile file hole.location 8
      some (getInt buffer 0 == SIGNATURE && getInt buffer 4 == fileSize)
  else
    some false

/-- Parse the index: one record per entry, consumed front to back.  An entry
with the CLST type is not added to the entries; its payload is read from the
file and becomes the CLST content (a later CLST record overwrites an earlier
one, as in the source).  An out-of-bounds entry rejects the package. -/
def parseIndex (file : List Nat) (fileSize : Nat) (v2 : Bool) (buf : List Nat) :
    Nat → List Nat → Option (List Entry × List Nat)
  | 0, clst => some ([], clst)
  | n + 1, clst =>
    let type := getInt buf 0
    let group := getInt buf 4
    let inst := getInt buf 8
    let resource := if v2 then getInt buf 12 else 0
    let location := getInt buf (if v2 then 16 else 12)
    let size := getInt buf (if v2 then 20 else 16)
    if location > fileSize ∨ (location + size) % UMOD > fileSize then
      none
    else if type = CLST_TYPE then
      parseIndex file fileSize v2 (buf.drop (if v2 then 24 else 20)) n
        (readFile file location size)
    else
      match parseIndex file fileSize v2 (buf.drop (if v2 then 24 else 20)) n clst with
      | none => none
      | some (entries, clst2) =>
        some (⟨type, group, inst, resource, location, size, 0, false, false⟩ :: entries,
              clst2)

/-- Worker for `parseClstRecords`, structurally recursive on a fuel bound (one
unit per record; the payload length is always enough fuel). -/
def parseClstGo (v2 : Bool) : Nat → List Nat → List CompressedEntry
  | 0, _ => []
  | _, [] => []
  | fuel + 1, b :: l =>
    { type := getInt (b :: l) 0
      group := getInt (b :: l) 4
      inst := getInt (b :: l) 8
      resource := if v2 then getInt (b :: l) 12 else 0
      uncompressedSize := getInt (b :: l) (if v2 then 16 else 12) } ::
      parseClstGo v2 fuel ((b :: l).drop (if v2 then 20 else 16))

/-- Parse the CLST payload into compressed-directory records, consumed 16 (or
20, with a fourth TGIR field) bytes at a time until the payload runs out. -/
def parseClstRecords (v2 : Bool) (l : List Nat) : List CompressedEntry :=
  parseClstGo v2 l.length l

/-- Mark each entry compressed exactly when its TGIR is found among the CLST
records, copying the uncompressed size from the record. -/
def markCompressed (ces : List CompressedEntry) (entries : List Entry) :
    List Entry :=
  entries.map fun e =>
    match ces.find? (fun c => tgirEqCE c e) with
    | some c => { e with compressed := true, uncompressedSize := c.uncompressedSize }
    | none => { e with compressed := false }

/-- Set the `repeated` flag of the entry at one index. -/
def setRepeatedAt : List Entry → Nat → List Entry
  | [], _ => []
  | e :: rest, 0 => { e with repeated := true } :: rest
  | e :: rest, n + 1 => e :: setRepeatedAt rest n

/-- Worker for `markRepeated`: `acc` is the processed prefix and `emap` maps a
TGIR (represented by its first entry) to the index of its first occurrence;
on a repeat both the current entry and the first occurrence are marked. -/
def markRepeatedGo (acc : List Entry) (emap : List (Entry × Nat)) :
    List Entry → List Entry
  | [] => acc
  | e :: rest =>
    match emap.find? (fun p => tgirEqE p.1 e) with
    | some p =>
      markRepeatedGo (setRepeatedAt acc p.2 ++ [{ e with repeated := true }]) emap rest
    | none =>
      markRepeatedGo (acc ++ [e]) ((e, acc.length) :: emap) rest

/-- Mark entries whose TGIR appears more than once, from the repeated-TGIR
loop of `getPackage` (run only in RECOMPRESS mode). -/
def markRepeated (entries : List Entry) : List Entry :=
  markRepeatedGo [] [] entries

/-- The archive reader, from `getPackage` in dbpf.h.  `none` models the
sentinel `Package{false}` returns. -/
def getPackage? (file : List Nat) (mode : Mode) : Option Package :=
  if getFileSize file < 96 then
    none
  else if headerChecksOk (getFileSize file) (getInt (readFile file 0 96) 0)
      (parseHeader (readFile file 0 96)) = false then
    none
  else
    match checkSignature file (getFileSize file) (parseHeader (readFile file 0 96))
        (parseHoles
          (readFile file (parseHeader (readFile file 0 96)).holeIndexLocation
            (parseHeader (readFile file 0 96)).holeIndexSize)
          (parseHeader (readFile file 0 96)).holeIndexEntryCount) with
    | none => none
    | some sigFlag =>
      match parseIndex file (getFileSize file)
          ((parseHeader (readFile file 0 96)).indexMinorVersion = 2)
          (readFile file (parseHeader (readFile file 0 96)).indexLocation
            (parseHeader (readFile file 0 96)).indexSize)
          (parseHeader (readFile file 0 96)).indexEntryCount [] with
      | none => none
      | some (entries0, clstContent) =>
        some { unpacked := true
               signature_in_package := sigFlag
               header := parseHeader (readFile file 0 96)
               entries :=
                 (if mode = RECOMPRESS then
                   markRepeated
                     (if 0 < clstContent.length then
                       markCompressed
                         (parseClstRecords
                           ((parseHeader (readFile file 0 96)).indexMinorVersion = 2)
                           clstContent)
                         entries0
                      else entries0)
                  else
                   (if 0 < clstContent.length then
                     markCompressed
                       (parseClstRecords
                         ((parseHeader (readFile file 0 96)).indexMinorVersion = 2)
                         clstContent)
                       entries0
                    else entries0))
               holes := parseHoles
                 (readFile file (parseHeader (readFile file 0 96)).holeIndexLocation
                   (parseHeader (readFile file 0 96)).holeIndexSize)
                 (parseHeader (readFile file 0 96)).holeIndexEntryCount
               compressedEntries :=
                 (if 0 < clstContent.length then
                   parseClstRecords
                     ((parseHeader (readFile file 0 96)).indexMinorVersion = 2)
                     clstContent
                  else []) }

/-! ## Archive writer (putPackage) -/

/-- The 96-byte header written at the start of `putPackage`: nine `putInt`
calls, 24 bytes skipped (zero, patched later), the index minor version, and
the remainder copied at offset 64 (the copy fits into the zero-initialized
buffer; a remainder longer than 32 bytes would overflow in the source and is
truncated here). -/
def putHeaderBytes (h : Header) : List Nat :=
  encodeU32 DBPF_MAGIC ++ encodeU32 h.majorVersion ++ encodeU32 h.minorVersion ++
  encodeU32 h.majorUserVersion ++ encodeU32 h.minorUserVersion ++
  encodeU32 h.flags ++ encodeU32 h.createdDate ++ encodeU32 h.modifiedDate ++
  encodeU32 h.indexMajorVersion ++ List.replicate 24 0 ++
  encodeU32 h.indexMinorVersion ++
  (h.remainder.take 32 ++ List.replicate (32 - h.remainder.length) 0)

/-- Transform one entry content according to the mode, from the per-entry
branch of `putPackage`. -/
def transformContent (qc : QfsCompress) (qd : QfsDecompress) (mode : Mode)
    (entry : Entry) (content : List Nat) : Entry × List Nat :=
  if mode = RECOMPRESS then
    recompressEntry qc qd entry content
  else if mode = DECOMPRESS then
    decompressEntry qd entry content
  else
    (entry, content)

/-- The entry-writing loop of `putPackage`, processed in entry order: each
entry content is read from the old file, transformed, given the current write
position as its location, and appended to the new file.  Returns the updated
entries and the grown file. -/
def writeEntries (qc : QfsCompress) (qd : QfsDecompress) (oldFile : List Nat)
    (mode : Mode) : List Entry → List Nat → List Entry × List Nat
  | [], f => ([], f)
  | e :: rest, f =>
    let content := readFile oldFile e.location e.size
    let tc := transformContent qc qd mode e content
    let e2 : Entry :=
      { tc.1 with
        size := tc.2.length
        uncompressedSize :=
          if tc.1.compressed then getUncompressedSize tc.2
          else tc.1.uncompressedSize
        location := f.length }
    let r := writeEntries qc qd oldFile mode rest (f ++ tc.2)
    (e2 :: r.1, r.2)

/-- One CLST record for a compressed entry: TGIR (the fourth field only with
index minor version 2) followed by the uncompressed size. -/
def clstRecord (v2 : Bool) (e : Entry) : List Nat :=
  encodeU32 e.type ++ encodeU32 e.group ++ encodeU32 e.inst ++
  (if v2 then encodeU32 e.resource else []) ++ encodeU32 e.uncompressedSize

/-- The CLST payload built by `putPackage`: records of the compressed entries
in entry order.  (The source writes into a preallocated zeroed buffer and
truncates it to the written length, which yields this concatenation.) -/
def buildClst (v2 : Bool) : List Entry → List Nat
  | [] => []
  | e :: rest => (if e.compressed then clstRecord v2 e else []) ++ buildClst v2 rest

/-- One index record: TGIR (fourth field only with v2), location, size. -/
def indexRecord (v2 : Bool) (e : Entry) : List Nat :=
  encodeU32 e.type ++ encodeU32 e.group ++ encodeU32 e.inst ++
  (if v2 then encodeU32 e.resource else []) ++ encodeU32 e.location ++
  encodeU32 e.size

/-- The index buffer: one record per entry, in order. -/
def buildIndex (v2 : Bool) : List Entry → List Nat
  | [] => []
  | e :: rest => indexRecord v2 e ++ buildIndex v2 rest

/-- The archive writer, from `putPackage` in dbpf.h: header, transformed entry
contents, the regenerated CLST (appended to the entries only when nonempty),
the index, in RECOMPRESS mode the hole index and signature hole, and finally
the header patch at offset 36.  Returns the written file and the mutated
package. -/
def putPackage (qc : QfsCompress) (qd : QfsDecompress) (oldFile : List Nat)
    (package : Package) (mode : Mode) : List Nat × Package :=
  let v2 := package.header.indexMinorVersion = 2
  let w := writeEntries qc qd oldFile mode package.entries
    (putHeaderBytes package.header)
  let entries1 := w.1
  let file1 := w.2
  let clstContent := buildClst v2 entries1
  let clst : Entry :=
    { type := CLST_TYPE, group := CLST_TYPE, inst := 0x286B1F03, resource := 0,
      location := file1.length, size := clstContent.length }
  let ef2 :=
    if 0 < clstContent.length then (entries1 ++ [clst], file1 ++ clstContent)
    else (entries1, file1)
  let entries2 := ef2.1
  let file2 := ef2.2
  let indexStart := file2.length
  let file3 := file2 ++ buildIndex v2 entries2
  let indexEnd := file3.length
  let holeIndexLocation := indexEnd
  let file4 :=
    if mode = RECOMPRESS then
      file3 ++ encodeU32 (holeIndexLocation + 8) ++ encodeU32 8 ++
        encodeU32 SIGNATURE ++ encodeU32 (holeIndexLocation + 16)
    else
      file3
  let patch :=
    encodeU32 entries2.length ++ encodeU32 indexStart ++
    encodeU32 (indexEnd - indexStart) ++
    (if mode = RECOMPRESS then
      encodeU32 1 ++ encodeU32 holeIndexLocation ++ encodeU32 8
     else
      List.replicate 12 0)
  (writeAt file4 36 patch, { package with entries := entries2 })

/-! ## Orchestrator decisions (main in dbpf-recompress.cpp) -/

/-- The mode adjustments of `main`: a RECOMPRESS run skips a package bearing
the signature, and a DECOMPRESS run skips a package with no compressed entry.
A skipped package is never written. -/
def effectiveMode (package : Package) (mode : Mode) : Mode :=
  if mode = RECOMPRESS ∧ package.signature_in_package then
    SKIP
  else if mode = DECOMPRESS ∧ package.entries.all (fun e => e.compressed = false) then
    SKIP
  else
    mode

/-! ## Validator (validatePackage in dbpf-recompress.cpp) -/

/-- The per-entry comparison loop of `validatePackage`, over the positionally
paired old and new entries.  (The dereference of the CLST lookup result is
only reached when the entry is compressed, in which case the new package
always has a matching record; a missing record is modelled as size 0.) -/
def validateEntries (qd : QfsDecompress) (newPackage : Package)
    (oldFile newFile : List Nat) : List (Entry × Entry) → Bool
  | [] => true
  | (oldEntry, newEntry) :: rest =>
    if oldEntry.type ≠ newEntry.type ∨ oldEntry.group ≠ newEntry.group ∨
        oldEntry.inst ≠ newEntry.inst ∨ oldEntry.resource ≠ newEntry.resource then
      false
    else
      let oldContent := readFile oldFile oldEntry.location oldEntry.size
      let newContent := readFile newFile newEntry.location newEntry.size
      let compressedInHeader :=
        9 ≤ newContent.length ∧ byteAt newContent 4 = 0x10 ∧
          byteAt newContent 5 = 0xFB
      let iter := newPackage.compressedEntries.find? (fun c => tgirEqCE c newEntry)
      if compressedInHeader ≠ iter.isSome then
        false
      else if newEntry.compressed ∧
          getUncompressedSize newContent ≠
            ((iter.map CompressedEntry.uncompressedSize).getD 0) then
        false
      else if newEntry.compressed ∧ getInt newContent 0 ≠ newEntry.size then
        false
      else if newEntry.compressed ∧
          getInt newContent 0 > getUncompressedSize newContent then
        false
      else if (decompressEntry qd oldEntry oldContent).2 ≠
          (decompressEntry qd newEntry newContent).2 then
        false
      else
        validateEntries qd newPackage oldFile newFile rest

/-- The validator, from `validatePackage` in dbpf-recompress.cpp.  The new
package is the result of re-parsing the written file, so a failed parse
(`none`, the `unpacked = false` sentinel) is rejected first. -/
def validatePackage (qd : QfsDecompress) (oldPackage : Package)
    (newPackage? : Option Package) (oldFile newFile : List Nat) (mode : Mode) :
    Bool :=
  match newPackage? with
  | none => false
  | some newPackage =>
    let oldHeader := readFile oldFile 0 96
    let newHeader := readFile newFile 0 96
    if oldHeader.take 36 ≠ newHeader.take 36 ∨
        oldHeader.drop 60 ≠ newHeader.drop 60 then
      false
    else if mode = RECOMPRESS ∧ newPackage.header.holeIndexEntryCount ≠ 1 then
      false
    else if mode = RECOMPRESS ∧ newPackage.header.holeIndexSize ≠ 8 then
      false
    else if mode = RECOMPRESS ∧ (newPackage.holes.headD ⟨0, 0⟩).size ≠ 8 then
      false
    else if mode = RECOMPRESS ∧
        getInt (readFile newFile (newPackage.holes.headD ⟨0, 0⟩).location 8) 0 ≠
          SIGNATURE then
      false
    else if mode = RECOMPRESS ∧
        getInt (readFile newFile (newPackage.holes.headD ⟨0, 0⟩).location 8) 4 ≠
          getFileSize newFile then
      false
    else if oldPackage.entries.length ≠ newPackage.entries.length then
      false
    else
      validateEntries qd newPackage oldFile newFile
        (oldPackage.entries.zip newPackage.entries)

/-! ## QFS codec

The codec lives in qfs.h, which is not among the sources; both functions are
modelled from the specification (section 4.2 and the opcode tables of
how-to-compress.md). -/

/-- Copy `count` bytes, one byte at a time, from `offset` bytes before the end
of the output to the end (an offset smaller than the count builds a repeating
pattern).  The caller has checked `1 ≤ offset ≤ out.length`. -/
def qfsCopyBack (out : List Nat) (offset : Nat) : Nat → List Nat
  | 0 => out
  | c + 1 => qfsCopyBack (out ++ [out.getD (out.length - offset) 0]) offset c

/-- Modelled from the spec: the opcode loop of `qfs_decompress`.  Reads one
opcode (one to four control bytes selected by the first byte), copies the
literal run from the stream, then copies `count` bytes back from `offset`;
fails when an opcode or literal read runs past the input or an offset reaches
past the start of the output; the terminator family (0xFC..0xFF) ends the
stream after its literal run. -/
def qfsDecodeLoop : Nat → List Nat → List Nat → Option (List Nat)
  | 0, _, _ => none
  | _, [], _ => none
  | fuel + 1, b0m :: rest, out =>
    let b0 := b0m % 256
    if b0 < 0x80 then
      match rest with
      | [] => none
      | b1m :: rest2 =>
        let b1 := b1m % 256
        let plain := b0 % 4
        let count := b0 / 4 % 8 + 3
        let offset := b0 % 128 / 32 * 1024 + b1 + 1
        if rest2.length < plain then none
        else
          let out1 := out ++ rest2.take plain
          if out1.length < offset then none
          else qfsDecodeLoop fuel (rest2.drop plain) (qfsCopyBack out1 offset count)
    else if b0 < 0xC0 then
      match rest with
      | b1m :: b2m :: rest3 =>
        let b1 := b1m % 256
        let b2 := b2m % 256
        let plain := b1 / 64
        let count := b0 % 64 + 4
        let offset := b1 % 64 * 256 + b2 + 1
        if rest3.length < plain then none
        else
          let out1 := out ++ rest3.take plain
          if out1.length < offset then none
          else qfsDecodeLoop fuel (rest3.drop plain) (qfsCopyBack out1 offset count)
      | _ => none
    else if b0 < 0xE0 then
      match rest with
      | b1m :: b2m :: b3m :: rest4 =>
        let b1 := b1m % 256
        let b2 := b2m % 256
        let b3 := b3m % 256
        let plain := b0 % 4
        let count := b0 % 16 / 4 * 256 + b3 + 5
        let offset := b0 % 32 / 16 * 65536 + b1 * 256 + b2 + 1
        if rest4.length < plain then none
        else
          let out1 := out ++ rest4.take plain
          if out1.length < offset then none
          else qfsDecodeLoop fuel (rest4.drop plain) (qfsCopyBack out1 offset count)
      | _ => none
    else if b0 < 0xFC then
      let plain := b0 % 32 * 4 + 4
      if rest.length < plain then none
      else qfsDecodeLoop fuel (rest.drop plain) (out ++ rest.take plain)
    else
      let plain := b0 % 4
      if rest.length < plain then none
      else some (out ++ rest.take plain)

/-- Modelled from the spec: `qfs_decompress` from qfs.h.  The opcode stream
follows the 9-byte framing header; the result must have exactly the declared
length. -/
def qfsDecompress (src : List Nat) (dstLen : Nat) : Option (List Nat) :=
  match qfsDecodeLoop src.length (src.drop 9) [] with
  | some out => if out.length = dstLen then some out else none
  | none => none

/-- Length of the longest common run of bytes at positions `j` and `p`
(bounded by `fuel`), used by the match search of the compressor model. -/
def matchLen (src : List Nat) : Nat → Nat → Nat → Nat
  | _, _, 0 => 0
  | j, p, fuel + 1 =>
    if p < src.length ∧ byteAt src j = byteAt src p then
      1 + matchLen src (j + 1) (p + 1) fuel
    else
      0

/-- Modelled from the spec: the longest-match search of the compressor, over
all previous positions within the largest (131072-byte) window, with match
lengths capped at 1028.  Returns `(offset, length)`; offset 0 means no match.
Ties prefer the smaller offset. -/
def bestMatch (src : List Nat) (p : Nat) : Nat × Nat :=
  (List.range p).foldl
    (fun best j =>
      let off := p - j
      if off ≤ 131072 then
        let len := min (matchLen src j p 1028) 1028
        if best.2 < len then (off, len) else best
      else
        best)
    (0, 0)

/-- A match is encodable when it meets the minimum length of a family whose
offset bound it satisfies: 3 within 1024, 4 within 16384, 5 within 131072. -/
def usableMatch (off len : Nat) : Bool :=
  (3 ≤ len && 1 ≤ off && off ≤ 1024) ||
  (4 ≤ len && 1 ≤ off && off ≤ 16384) ||
  (5 ≤ len && 1 ≤ off && off ≤ 131072)

/-- Opcode bytes of one back-reference, choosing the smallest family that
holds the full (possibly family-capped) length, with `plain` trailing
literals (0..3) attached. -/
def matchOpcode (off len plain : Nat) : List Nat :=
  if len ≤ 10 ∧ off ≤ 1024 then
    [(off - 1) / 8 % 256 / 32 * 32 % 128 + (len - 3) * 4 + plain, (off - 1) % 256]
  else if len ≤ 67 ∧ off ≤ 16384 then
    [0x80 + (len - 4), plain * 64 + (off - 1) / 256, (off - 1) % 256]
  else
    [0xC0 + (off - 1) / 4096 % 32 / 16 * 16 + (len - 5) / 64 % 1024 / 4 * 4 % 16 +
       plain,
     (off - 1) / 256 % 256, (off - 1) % 256, (len - 5) % 256]

/-- The family-capped length actually encoded by `matchOpcode`. -/
def matchUseLen (off len : Nat) : Nat :=
  if len ≤ 10 ∧ off ≤ 1024 then len
  else if off ≤ 16384 ∧ 4 ≤ len then min len 67
  else min len 1028

/-- Emit standalone literal opcodes (plain runs of 4..112 bytes, multiples of
four) for the pending literal bytes, returning the emitted stream and the
remaining 0..3 bytes; structurally recursive on a fuel bound. -/
def emitLiteralRunsGo : Nat → List Nat → List Nat × List Nat
  | 0, buf => ([], buf)
  | fuel + 1, buf =>
    if 4 ≤ buf.length then
      let chunk := min 112 (buf.length / 4 * 4)
      let r := emitLiteralRunsGo fuel (buf.drop chunk)
      (((0xE0 + (chunk - 4) / 4) :: buf.take chunk) ++ r.1, r.2)
    else
      ([], buf)

/-- Emit standalone literal opcodes for the pending literal bytes (see
`emitLiteralRunsGo`; the fuel is always sufficient). -/
def emitLiteralRuns (buf : List Nat) : List Nat × List Nat :=
  emitLiteralRunsGo buf.length buf

/-- Modelled from the spec: the greedy encoding loop of the compressor.  At
each position it takes the longest usable match, first flushing pending
literals (multiples of four as literal opcodes, the remainder 0..3 attached to
the match opcode); positions without a usable match extend the pending
literal run; the end of the input flushes the literals and the terminator. -/
def encodeLoop (src : List Nat) : Nat → Nat → Nat → List Nat
  | _, _, 0 => []
  | p, lit, fuel + 1 =>
    if p < src.length then
      let m := bestMatch src p
      if usableMatch m.1 (min m.2 (src.length - p)) then
        let len := min m.2 (src.length - p)
        let use := matchUseLen m.1 len
        let fl := emitLiteralRuns ((src.drop (p - lit)).take lit)
        fl.1 ++ matchOpcode m.1 use fl.2.length ++ fl.2 ++
          encodeLoop src (p + use) 0 fuel
      else
        encodeLoop src (p + 1) (lit + 1) fuel
    else
      let fl := emitLiteralRuns ((src.drop (p - lit)).take lit)
      fl.1 ++ [0xFC + fl.2.length] ++ fl.2

/-- The opcode stream produced by the compressor model for a payload. -/
def qfsEncodeStream (src : List Nat) : List Nat :=
  encodeLoop src 0 0 (src.length + 1)

/-- Modelled from the spec: `qfs_compress` from qfs.h.  The stream is written
after the reserved 9-byte header; the compressor bails out (no compression)
when the stream plus the header does not fit the destination capacity, which
the caller sets to one byte less than the input.  On success the framing
header holds the total compressed size (u32 LE), the signature bytes
0x10 0xFB, and the input length as a big-endian 24-bit integer. -/
def qfsCompress (src : List Nat) (dstLen : Nat) : Option (List Nat) :=
  let stream := qfsEncodeStream src
  if 9 + stream.length ≤ dstLen then
    some (encodeU32 (9 + stream.length) ++ [0x10, 0xFB] ++
      encodeU24BE src.length ++ stream)
  else
    none

/-! ## Byte-level lemmas -/

theorem drop_append_ge (A B : List Nat) (p : Nat) (h : A.length ≤ p) :
    (A ++ B).drop p = B.drop (p - A.length) := by
  have h2 := @List.drop_append _ A B (p - A.length)
  rwa [Nat.add_sub_cancel' h] at h2

theorem byteAt_append_right (A l : List Nat) (k : Nat) (h : A.length ≤ k) :
    byteAt (A ++ l) k = byteAt l (k - A.length) := by
  simp only [byteAt, List.getD_eq_getElem?_getD, List.getElem?_append_right h]

theorem getInt_append_right (A l : List Nat) (k : Nat) (h : A.length ≤ k) :
    getInt (A ++ l) k = getInt l (k - A.length) := by
  unfold getInt
  rw [byteAt_append_right A l k h, byteAt_append_right A l (k + 1) (by omega),
    byteAt_append_right A l (k + 2) (by omega),
    byteAt_append_right A l (k + 3) (by omega)]
  have e1 : k + 1 - A.length = k - A.length + 1 := by omega
  have e2 : k + 2 - A.length = k - A.length + 2 := by omega
  have e3 : k + 3 - A.length = k - A.length + 3 := by omega
  rw [e1, e2, e3]

theorem encodeU32_length (a : Nat) : (encodeU32 a).length = 4 := rfl

theorem getInt_encodeU32 (a : Nat) (l : List Nat) :
    getInt (encodeU32 a ++ l) 0 = a % UMOD := by
  have h : getInt (encodeU32 a ++ l) 0 =
      a % 256 % 256 + 256 * (a / 256 % 256 % 256) + 65536 * (a / 65536 % 256 % 256) +
      16777216 * (a / 16777216 % 256 % 256) := rfl
  rw [h]; unfold UMOD; omega

theorem getInt_encodeU32_skip (a : Nat) (l : List Nat) (k : Nat) :
    getInt (encodeU32 a ++ l) (4 + k) = getInt l k := by
  have h := getInt_append_right (encodeU32 a) l (4 + k) (by simp [encodeU32])
  simpa [encodeU32] using h

theorem getInt_lt_UMOD (buf : List Nat) (pos : Nat) : getInt buf pos < UMOD := by
  have h0 : byteAt buf pos < 256 := Nat.mod_lt _ (by omega)
  have h1 : byteAt buf (pos + 1) < 256 := Nat.mod_lt _ (by omega)
  have h2 : byteAt buf (pos + 2) < 256 := Nat.mod_lt _ (by omega)
  have h3 : byteAt buf (pos + 3) < 256 := Nat.mod_lt _ (by omega)
  unfold getInt UMOD
  omega

theorem readFile_length (file : List Nat) (pos size : Nat) :
    (readFile file pos size).length = size := by
  simp [readFile]

theorem readFile_append_right (A B : List Nat) (p n : Nat) (h : A.length ≤ p) :
    readFile (A ++ B) p n = readFile B (p - A.length) n := by
  unfold readFile
  rw [drop_append_ge A B p h]

theorem readFile_exact (B C : List Nat) (n : Nat) (h : B.length = n) :
    readFile (B ++ C) 0 n = B := by
  subst h
  unfold readFile
  rw [List.drop_zero, List.append_assoc, List.take_left]

theorem readFile_self (B : List Nat) : readFile B 0 B.length = B := by
  simpa using readFile_exact B [] B.length rfl

/-! ## Claim C5: recompressEntry keeps the transformed payload exactly when it
is strictly smaller -/

/-- C5: recompressEntry returns the transformed (decompressed, then
recompressed) payload exactly when its length is strictly smaller than the
original payload length; otherwise it returns the original bytes with the
compressed flag restored to its value from before the call. -/
theorem c5_recompress_smaller (qc : QfsCompress) (qd : QfsDecompress)
    (entry : Entry) (content : List Nat) :
    ((compressEntry qc (decompressEntry qd entry content).1
        (decompressEntry qd entry content).2).2.length < content.length →
      recompressEntry qc qd entry content =
        compressEntry qc (decompressEntry qd entry content).1
          (decompressEntry qd entry content).2) ∧
    (content.length ≤
        (compressEntry qc (decompressEntry qd entry content).1
          (decompressEntry qd entry content).2).2.length →
      (recompressEntry qc qd entry content).2 = content ∧
      (recompressEntry qc qd entry content).1.compressed = entry.compressed) := by
  constructor
  · intro h
    simp only [recompressEntry]
    rw [if_pos h]
  · intro h
    simp only [recompressEntry]
    rw [if_neg (by omega)]
    exact ⟨rfl, rfl⟩

/-- Witness for C5 at a concrete entry and payload with a codec that offers
no compression: the original bytes come back and the flag is unchanged. -/
theorem c5_recompress_smaller_witness :
    (recompressEntry (fun _ _ => none) (fun _ _ => none)
      { type := 0, group := 0, inst := 0, resource := 0, location := 0, size := 3 }
      [1, 2, 3]).2 = [1, 2, 3] ∧
    (recompressEntry (fun _ _ => none) (fun _ _ => none)
      { type := 0, group := 0, inst := 0, resource := 0, location := 0, size := 3 }
      [1, 2, 3]).1.compressed = false :=
  (c5_recompress_smaller (fun _ _ => none) (fun _ _ => none)
    { type := 0, group := 0, inst := 0, resource := 0, location := 0, size := 3 }
    [1, 2, 3]).2 (by decide)

/-! ## Claim C9: decompressEntry leaves the entry unchanged on codec failure -/

/-- C9: when the entry is marked compressed and the codec reports failure,
decompressEntry returns the original payload bytes unchanged and the entry
(with its compressed flag still true). -/
theorem c9_decompress_failure (qd : QfsDecompress) (entry : Entry)
    (content : List Nat) (hc : entry.compressed = true)
    (hf : qd content (getUncompressedSize content) = none) :
    decompressEntry qd entry content = (entry, content) ∧
    (decompressEntry qd entry content).1.compressed = true := by
  have h : decompressEntry qd entry content = (entry, content) := by
    simp [decompressEntry, hc, hf]
  exact ⟨h, by rw [h]; exact hc⟩

/-- Witness for C9 at a concrete compressed entry with an always-failing
codec. -/
theorem c9_decompress_failure_witness :
    decompressEntry (fun _ _ => none)
      { type := 0, group := 0, inst := 0, resource := 0, location := 0, size := 10,
        uncompressedSize := 4, compressed := true }
      [10, 0, 0, 0, 0x10, 0xFB, 0, 0, 4, 0] =
      ({ type := 0, group := 0, inst := 0, resource := 0, location := 0, size := 10,
         uncompressedSize := 4, compressed := true },
       [10, 0, 0, 0, 0x10, 0xFB, 0, 0, 4, 0]) :=
  (c9_decompress_failure (fun _ _ => none) _ _ rfl rfl).1

/-! ## Claim C10: a 9-byte payload makes the unchecked reads of
decompressEntry in bounds -/

/-- C10: with a payload of at least 9 bytes every buffer access of
decompressEntry is in bounds — the bounds-checked variants of
getUncompressedSize and decompressEntry succeed and agree with the unchecked
code — and with a shorter payload the unchecked reads of bytes 6..8 on a
compressed entry are out of bounds, so 9 bytes is the precondition for
totality. -/
theorem c10_decompress_bounds (qd : QfsDecompress) (entry : Entry)
    (content : List Nat) (h9 : 9 ≤ content.length) :
    getUncompressedSizeChecked content = some (getUncompressedSize content) ∧
    decompressEntryChecked qd entry content =
      some (decompressEntry qd entry content) ∧
    (∀ short : List Nat, short.length < 9 →
      getUncompressedSizeChecked short = none) := by
  have h6 : content[6]? = some (content.getD 6 0) := by
    rw [List.getD_eq_getElem?_getD, List.getElem?_eq_getElem (by omega)]
    simp
  have h7 : content[7]? = some (content.getD 7 0) := by
    rw [List.getD_eq_getElem?_getD, List.getElem?_eq_getElem (by omega)]
    simp
  have h8 : content[8]? = some (content.getD 8 0) := by
    rw [List.getD_eq_getElem?_getD, List.getElem?_eq_getElem (by omega)]
    simp
  have hu : getUncompressedSizeChecked content = some (getUncompressedSize content) := by
    simp only [getUncompressedSizeChecked, h6, h7, h8, Option.bind_eq_bind,
      Option.some_bind]
    simp [getUncompressedSize, byteAt]
  refine ⟨hu, ?_, ?_⟩
  · unfold decompressEntryChecked decompressEntry
    by_cases hc : entry.compressed
    · simp only [hc, if_true, hu]
      cases qd content (getUncompressedSize content) <;> simp
    · simp [hc]
  · intro short hshort
    have : short[8]? = none := by
      rw [List.getElem?_eq_none]; omega
    simp only [getUncompressedSizeChecked, this]
    cases h6' : short[6]? <;> cases h7' : short[7]? <;> simp

/-- Witness for C10 at a concrete 9-byte payload. -/
theorem c10_decompress_bounds_witness :
    getUncompressedSizeChecked [9, 0, 0, 0, 0x10, 0xFB, 0, 0, 4] = some 4 ∧
    decompressEntryChecked (fun _ _ => none)
      { type := 0, group := 0, inst := 0, resource := 0, location := 0, size := 9,
        compressed := true }
      [9, 0, 0, 0, 0x10, 0xFB, 0, 0, 4] =
      some ({ type := 0, group := 0, inst := 0, resource := 0, location := 0,
              size := 9, compressed := true },
            [9, 0, 0, 0, 0x10, 0xFB, 0, 0, 4]) := by
  have h := c10_decompress_bounds (fun _ _ => none)
    { type := 0, group := 0, inst := 0, resource := 0, location := 0, size := 9,
      compressed := true }
    [9, 0, 0, 0, 0x10, 0xFB, 0, 0, 4] (by decide)
  exact ⟨by rw [h.1]; decide, by rw [h.2.1]; decide⟩

/-! ## Claim C6: successful compression is strictly smaller and carries the
framing header -/

/-- C6: with the spec-modelled codec, whenever compressEntry marks the entry
compressed and returns new bytes y, the output is strictly smaller than the
input (the codec is offered a destination one byte smaller than the input),
bytes 4..5 of y are 0x10 0xFB, and the 24-bit big-endian integer at bytes 6..8
equals the input length; moreover a stream that makes the compressed form
exactly one byte smaller than the input is accepted while one of the input
size or more is rejected. -/
theorem c6_compress_contract (entry : Entry) (x : List Nat)
    (he : entry.compressed = false) (hr : entry.repeated = false)
    (hx : x.length < 16777216) :
    (∀ y, qfsCompress x (x.length - 1) = some y →
      compressEntry qfsCompress entry x = ({ entry with compressed := true }, y) ∧
      y.length < x.length ∧
      byteAt y 4 = 0x10 ∧ byteAt y 5 = 0xFB ∧
      getUncompressedSize y = x.length) ∧
    (9 + (qfsEncodeStream x).length = x.length - 1 →
      (qfsCompress x (x.length - 1)).isSome = true) ∧
    (x.length ≤ 9 + (qfsEncodeStream x).length →
      qfsCompress x (x.length - 1) = none) := by
  refine ⟨?_, ?_, ?_⟩
  · intro y hy
    have hfit : 9 + (qfsEncodeStream x).length ≤ x.length - 1 := by
      by_contra hnot
      simp only [qfsCompress] at hy
      rw [if_neg hnot] at hy
      exact Option.noConfusion hy
    have hxpos : 1 ≤ x.length := by omega
    have hyval : y = encodeU32 (9 + (qfsEncodeStream x).length) ++ [0x10, 0xFB] ++
        encodeU24BE x.length ++ qfsEncodeStream x := by
      simp only [qfsCompress] at hy
      rw [if_pos hfit] at hy
      exact (Option.some_inj.mp hy).symm
    refine ⟨?_, ?_, ?_, ?_, ?_⟩
    · simp [compressEntry, he, hr, hy]
    · have hlen : y.length = 9 + (qfsEncodeStream x).length := by
        subst hyval
        simp [encodeU32, encodeU24BE]
        omega
      omega
    · subst hyval; rfl
    · subst hyval; rfl
    · subst hyval
      have hval : getUncompressedSize
          (encodeU32 (9 + (qfsEncodeStream x).length) ++ [0x10, 0xFB] ++
            encodeU24BE x.length ++ qfsEncodeStream x) =
          65536 * (x.length / 65536 % 256 % 256) + 256 * (x.length / 256 % 256 % 256) +
          x.length % 256 % 256 := rfl
      rw [hval]
      omega
  · intro hacc
    simp only [qfsCompress]
    rw [if_pos (by omega)]
    rfl
  · intro hrej
    simp only [qfsCompress]
    rw [if_neg (by omega)]

/-- Witness for C6: 40 zero bytes compress to a 14-byte payload whose framing
header carries the signature and the length 40. -/
theorem c6_compress_contract_witness :
    compressEntry qfsCompress
      { type := 1, group := 2, inst := 3, resource := 0, location := 0, size := 40 }
      (List.replicate 40 0) =
      ({ type := 1, group := 2, inst := 3, resource := 0, location := 0, size := 40,
         compressed := true },
       [14, 0, 0, 0, 0x10, 0xFB, 0, 0, 40, 163, 64, 0, 0, 252]) ∧
    (14 : Nat) < 40 := by
  have h := (c6_compress_contract
    { type := 1, group := 2, inst := 3, resource := 0, location := 0, size := 40 }
    (List.replicate 40 0) rfl rfl (by decide)).1
    [14, 0, 0, 0, 0x10, 0xFB, 0, 0, 40, 163, 64, 0, 0, 252] (by decide)
  exact ⟨h.1, by decide⟩

/-! ## Concrete archives for the counterexamples and witnesses -/

/-- A 96-byte header for test archives (major version 1, minor version 1,
index major version 7, index minor version 0) with the given index entry
count, index location and size, and hole index count, location and size. -/
def mkTestHeader (iec iloc isz hc hl hs : Nat) : List Nat :=
  encodeU32 DBPF_MAGIC ++ encodeU32 1 ++ encodeU32 1 ++ encodeU32 0 ++ encodeU32 0 ++
  encodeU32 0 ++ encodeU32 0 ++ encodeU32 0 ++ encodeU32 7 ++
  encodeU32 iec ++ encodeU32 iloc ++ encodeU32 isz ++
  encodeU32 hc ++ encodeU32 hl ++ encodeU32 hs ++ encodeU32 0 ++ List.replicate 32 0

/-- A compressed payload whose framing header declares compressed size 10 and
uncompressed size 10 and whose opcode stream (a bare terminator) produces 0
bytes, so decompression fails. -/
def badCompressedPayload : List Nat := [10, 0, 0, 0, 0x10, 0xFB, 0, 0, 10, 0xFC]

/-- An archive with one entry of TGIR (1,2,3,0) carrying
`badCompressedPayload` at offset 96, a CLST at offset 106 recording
uncompressed size 10 for that TGIR, and the index at offset 122. -/
def c1File : List Nat :=
  mkTestHeader 2 122 40 0 0 0 ++ badCompressedPayload ++
  (encodeU32 1 ++ encodeU32 2 ++ encodeU32 3 ++ encodeU32 10) ++
  (encodeU32 1 ++ encodeU32 2 ++ encodeU32 3 ++ encodeU32 96 ++ encodeU32 10) ++
  (encodeU32 CLST_TYPE ++ encodeU32 0 ++ encodeU32 0 ++ encodeU32 106 ++ encodeU32 16)

/-- The parse of `c1File`. -/
def c1OldPackage : Package where
  unpacked := true
  signature_in_package := false
  header :=
    { majorVersion := 1, minorVersion := 1, majorUserVersion := 0,
      minorUserVersion := 0, flags := 0, createdDate := 0, modifiedDate := 0,
      indexMajorVersion := 7, indexEntryCount := 2, indexLocation := 122,
      indexSize := 40, holeIndexEntryCount := 0, holeIndexLocation := 0,
      holeIndexSize := 0, indexMinorVersion := 0,
      remainder := List.replicate 32 0 }
  entries := [{ type := 1, group := 2, inst := 3, resource := 0, location := 96,
                size := 10, uncompressedSize := 10, compressed := true,
                repeated := false }]
  holes := []
  compressedEntries := [{ type := 1, group := 2, inst := 3, resource := 0,
                          uncompressedSize := 10 }]

/-- The archive written by `putPackage` in RECOMPRESS mode for `c1File`. -/
def c1NewFile : List Nat :=
  (putPackage qfsCompress qfsDecompress c1File c1OldPackage RECOMPRESS).1

/-- The re-parse of `c1NewFile`. -/
def c1NewPackage : Package where
  unpacked := true
  signature_in_package := true
  header :=
    { majorVersion := 1, minorVersion := 1, majorUserVersion := 0,
      minorUserVersion := 0, flags := 0, createdDate := 0, modifiedDate := 0,
      indexMajorVersion := 7, indexEntryCount := 2, indexLocation := 122,
      indexSize := 40, holeIndexEntryCount := 1, holeIndexLocation := 162,
      holeIndexSize := 8, indexMinorVersion := 0,
      remainder := List.replicate 32 0 }
  entries := [{ type := 1, group := 2, inst := 3, resource := 0, location := 96,
                size := 10, uncompressedSize := 10, compressed := true,
                repeated := false }]
  holes := [{ location := 170, size := 8 }]
  compressedEntries := [{ type := 1, group := 2, inst := 3, resource := 0,
                          uncompressedSize := 10 }]

set_option maxRecDepth 1000000 in
/-- C1 counterexample: `c1File` parses, its RECOMPRESS rewrite re-parses, and
the validator accepts the output, yet the single compressed entry of the new
archive has framing compressedSize equal to (not strictly less than) its
uncompressedSize.  The validator only rejects a compressedSize strictly
greater than the uncompressedSize, so the claim that acceptance requires
`compressedSize < uncompressedSize` is false. -/
theorem c1_validator_accepts_equal_sizes :
    getPackage? c1File RECOMPRESS = some c1OldPackage ∧
    getPackage? c1NewFile RECOMPRESS = some c1NewPackage ∧
    validatePackage qfsDecompress c1OldPackage (some c1NewPackage) c1File
      c1NewFile RECOMPRESS = true ∧
    c1NewPackage.entries.all (fun e => e.compressed) = true ∧
    c1NewPackage.entries.all (fun e =>
      getInt (readFile c1NewFile e.location e.size) 0 =
        getUncompressedSize (readFile c1NewFile e.location e.size)) = true := by
  decide

/-- An archive whose CLST records TGIR (1,2,3,0) with uncompressed size 42
while the entry with that TGIR has a zero-length payload at offset 96 (the
CLST payload sits at offset 96 too, the index at offset 112). -/
def c2File : List Nat :=
  mkTestHeader 2 112 40 0 0 0 ++
  (encodeU32 1 ++ encodeU32 2 ++ encodeU32 3 ++ encodeU32 42) ++
  (encodeU32 1 ++ encodeU32 2 ++ encodeU32 3 ++ encodeU32 96 ++ encodeU32 0) ++
  (encodeU32 CLST_TYPE ++ encodeU32 0 ++ encodeU32 0 ++ encodeU32 96 ++ encodeU32 16)

/-- The parse of `c2File`. -/
def c2Package : Package where
  unpacked := true
  signature_in_package := false
  header :=
    { majorVersion := 1, minorVersion := 1, majorUserVersion := 0,
      minorUserVersion := 0, flags := 0, createdDate := 0, modifiedDate := 0,
      indexMajorVersion := 7, indexEntryCount := 2, indexLocation := 112,
      indexSize := 40, holeIndexEntryCount := 0, holeIndexLocation := 0,
      holeIndexSize := 0, indexMinorVersion := 0,
      remainder := List.replicate 32 0 }
  entries := [{ type := 1, group := 2, inst := 3, resource := 0, location := 96,
                size := 0, uncompressedSize := 42, compressed := true,
                repeated := false }]
  holes := []
  compressedEntries := [{ type := 1, group := 2, inst := 3, resource := 0,
                          uncompressedSize := 42 }]

set_option maxRecDepth 1000000 in
/-- C2 counterexample: the reader parses `c2File` with `unpacked = true` and
marks its single entry compressed (its TGIR is in the CLST), yet the entry
payload is empty — it has no 9-byte framing header, no 0x10 0xFB signature
bytes, and no embedded uncompressed size.  The reader marks entries
compressed from CLST membership alone and never inspects payload bytes. -/
theorem c2_reader_trusts_clst :
    getPackage? c2File RECOMPRESS = some c2Package ∧
    c2Package.unpacked = true ∧
    c2Package.entries = [{ type := 1, group := 2, inst := 3, resource := 0,
                           location := 96, size := 0, uncompressedSize := 42,
                           compressed := true, repeated := false }] ∧
    readFile c2File 96 0 = [] ∧
    ¬ 9 ≤ (readFile c2File 96 0).length := by
  decide

/-- The C4 input archive: same bytes as `c1File` — one compressed entry whose
payload fails decompression. -/
def c4File : List Nat :=
  mkTestHeader 2 122 40 0 0 0 ++ badCompressedPayload ++
  (encodeU32 1 ++ encodeU32 2 ++ encodeU32 3 ++ encodeU32 10) ++
  (encodeU32 1 ++ encodeU32 2 ++ encodeU32 3 ++ encodeU32 96 ++ encodeU32 10) ++
  (encodeU32 CLST_TYPE ++ encodeU32 0 ++ encodeU32 0 ++ encodeU32 106 ++ encodeU32 16)

/-- The parse of `c4File` in DECOMPRESS mode. -/
def c4Package : Package where
  unpacked := true
  signature_in_package := false
  header :=
    { majorVersion := 1, minorVersion := 1, majorUserVersion := 0,
      minorUserVersion := 0, flags := 0, createdDate := 0, modifiedDate := 0,
      indexMajorVersion := 7, indexEntryCount := 2, indexLocation := 122,
      indexSize := 40, holeIndexEntryCount := 0, holeIndexLocation := 0,
      holeIndexSize := 0, indexMinorVersion := 0,
      remainder := List.replicate 32 0 }
  entries := [{ type := 1, group := 2, inst := 3, resource := 0, location := 96,
                size := 10, uncompressedSize := 10, compressed := true,
                repeated := false }]
  holes := []
  compressedEntries := [{ type := 1, group := 2, inst := 3, resource := 0,
                          uncompressedSize := 10 }]

/-- The archive written by `putPackage` in DECOMPRESS mode for `c4File`. -/
def c4NewFile : List Nat :=
  (putPackage qfsCompress qfsDecompress c4File c4Package DECOMPRESS).1

set_option maxRecDepth 1000000 in
/-- C4 counterexample: `c4File` parses successfully, but rewriting it in
Decompress mode and re-parsing yields an archive that still contains a
compressed entry (and a CLST resource), because the codec fails on the
entry payload and `decompressEntry` keeps the compressed bytes. -/
theorem c4_decompress_not_always_total :
    getPackage? c4File DECOMPRESS = some c4Package ∧
    c4Package.unpacked = true ∧
    (getPackage? c4NewFile DECOMPRESS).isSome = true ∧
    ((getPackage? c4NewFile DECOMPRESS).getD c4Package).entries.all
      (fun e => e.compressed) = true ∧
    ((getPackage? c4NewFile DECOMPRESS).getD c4Package).entries ≠ [] := by
  decide

/-! ## Soundness of the validator checks (for C1) -/

/-- Unfolding step for `validateEntries`: an accepted pair satisfies the
compressed-entry size checks, and the rest of the list is also accepted. -/
theorem validateEntries_cons (qd : QfsDecompress) (newP : Package)
    (oldFile newFile : List Nat) (oldE newE : Entry) (rest : List (Entry × Entry))
    (hv : validateEntries qd newP oldFile newFile ((oldE, newE) :: rest) = true) :
    (newE.compressed = true →
      getUncompressedSize (readFile newFile newE.location newE.size) =
        ((newP.compressedEntries.find? (fun c => tgirEqCE c newE)).map
          CompressedEntry.uncompressedSize).getD 0 ∧
      getInt (readFile newFile newE.location newE.size) 0 = newE.size ∧
      getInt (readFile newFile newE.location newE.size) 0 ≤
        getUncompressedSize (readFile newFile newE.location newE.size)) ∧
    validateEntries qd newP oldFile newFile rest = true := by
  simp only [validateEntries] at hv
  by_cases h1 : oldE.type ≠ newE.type ∨ oldE.group ≠ newE.group ∨
      oldE.inst ≠ newE.inst ∨ oldE.resource ≠ newE.resource
  · rw [if_pos h1] at hv; exact absurd hv (by simp)
  rw [if_neg h1] at hv
  by_cases h2 : (9 ≤ (readFile newFile newE.location newE.size).length ∧
      byteAt (readFile newFile newE.location newE.size) 4 = 0x10 ∧
      byteAt (readFile newFile newE.location newE.size) 5 = 0xFB) ≠
      (newP.compressedEntries.find? (fun c => tgirEqCE c newE)).isSome
  · rw [if_pos h2] at hv; exact absurd hv (by simp)
  rw [if_neg h2] at hv
  by_cases h3 : newE.compressed = true ∧
      getUncompressedSize (readFile newFile newE.location newE.size) ≠
        ((newP.compressedEntries.find? (fun c => tgirEqCE c newE)).map
          CompressedEntry.uncompressedSize).getD 0
  · rw [if_pos h3] at hv; exact absurd hv (by simp)
  rw [if_neg h3] at hv
  by_cases h4 : newE.compressed = true ∧
      getInt (readFile newFile newE.location newE.size) 0 ≠ newE.size
  · rw [if_pos h4] at hv; exact absurd hv (by simp)
  rw [if_neg h4] at hv
  by_cases h5 : newE.compressed = true ∧
      getInt (readFile newFile newE.location newE.size) 0 >
        getUncompressedSize (readFile newFile newE.location newE.size)
  · rw [if_pos h5] at hv; exact absurd hv (by simp)
  rw [if_neg h5] at hv
  by_cases h6 : (decompressEntry qd oldE
        (readFile oldFile oldE.location oldE.size)).2 ≠
      (decompressEntry qd newE (readFile newFile newE.location newE.size)).2
  · rw [if_pos h6] at hv; exact absurd hv (by simp)
  rw [if_neg h6] at hv
  push_neg at h3 h4 h5
  refine ⟨fun hc => ⟨h3 hc, h4 hc, by have := h5 hc; omega⟩, hv⟩

/-- An accepted entry list satisfies the compressed-entry size checks
pairwise. -/
theorem validateEntries_sound (qd : QfsDecompress) (newP : Package)
    (oldFile newFile : List Nat) (l : List (Entry × Entry))
    (hv : validateEntries qd newP oldFile newFile l = true) :
    ∀ pr ∈ l, pr.2.compressed = true →
      getUncompressedSize (readFile newFile pr.2.location pr.2.size) =
        ((newP.compressedEntries.find? (fun c => tgirEqCE c pr.2)).map
          CompressedEntry.uncompressedSize).getD 0 ∧
      getInt (readFile newFile pr.2.location pr.2.size) 0 = pr.2.size ∧
      getInt (readFile newFile pr.2.location pr.2.size) 0 ≤
        getUncompressedSize (readFile newFile pr.2.location pr.2.size) := by
  induction l with
  | nil => intro pr h; exact absurd h (by simp)
  | cons x rest ih =>
    intro pr hpr hcomp
    obtain ⟨oldE, newE⟩ := x
    have step := validateEntries_cons qd newP oldFile newFile oldE newE rest hv
    rcases List.mem_cons.mp hpr with heq | hmem
    · subst heq
      exact step.1 hcomp
    · exact ih step.2 pr hmem hcomp

/-- C1 (amended): when the validator accepts the output, every entry marked
compressed in the new archive has a framing uncompressedSize equal to the CLST
record for its TGIR, a framing compressedSize equal to the index-reported
size, and compressedSize at most (not necessarily strictly less than)
uncompressedSize; the validator rejects only a compressedSize strictly
greater than the uncompressedSize. -/
theorem c1_validator_size_checks (qd : QfsDecompress) (oldP newP : Package)
    (oldFile newFile : List Nat) (mode : Mode)
    (hv : validatePackage qd oldP (some newP) oldFile newFile mode = true) :
    ∀ pr ∈ oldP.entries.zip newP.entries, pr.2.compressed = true →
      getUncompressedSize (readFile newFile pr.2.location pr.2.size) =
        ((newP.compressedEntries.find? (fun c => tgirEqCE c pr.2)).map
          CompressedEntry.uncompressedSize).getD 0 ∧
      getInt (readFile newFile pr.2.location pr.2.size) 0 = pr.2.size ∧
      getInt (readFile newFile pr.2.location pr.2.size) 0 ≤
        getUncompressedSize (readFile newFile pr.2.location pr.2.size) := by
  simp only [validatePackage] at hv
  by_cases h1 : (readFile oldFile 0 96).take 36 ≠ (readFile newFile 0 96).take 36 ∨
      (readFile oldFile 0 96).drop 60 ≠ (readFile newFile 0 96).drop 60
  · rw [if_pos h1] at hv; exact absurd hv (by simp)
  rw [if_neg h1] at hv
  by_cases h2 : mode = RECOMPRESS ∧ newP.header.holeIndexEntryCount ≠ 1
  · rw [if_pos h2] at hv; exact absurd hv (by simp)
  rw [if_neg h2] at hv
  by_cases h3 : mode = RECOMPRESS ∧ newP.header.holeIndexSize ≠ 8
  · rw [if_pos h3] at hv; exact absurd hv (by simp)
  rw [if_neg h3] at hv
  by_cases h4 : mode = RECOMPRESS ∧ (newP.holes.headD ⟨0, 0⟩).size ≠ 8
  · rw [if_pos h4] at hv; exact absurd hv (by simp)
  rw [if_neg h4] at hv
  by_cases h5 : mode = RECOMPRESS ∧
      getInt (readFile newFile (newP.holes.headD ⟨0, 0⟩).location 8) 0 ≠ SIGNATURE
  · rw [if_pos h5] at hv; exact absurd hv (by simp)
  rw [if_neg h5] at hv
  by_cases h6 : mode = RECOMPRESS ∧
      getInt (readFile newFile (newP.holes.headD ⟨0, 0⟩).location 8) 4 ≠
        getFileSize newFile
  · rw [if_pos h6] at hv; exact absurd hv (by simp)
  rw [if_neg h6] at hv
  by_cases h7 : oldP.entries.length ≠ newP.entries.length
  · rw [if_pos h7] at hv; exact absurd hv (by simp)
  rw [if_neg h7] at hv
  exact validateEntries_sound qd newP oldFile newFile _ hv

set_option maxRecDepth 1000000 in
/-- Witness for the amended C1 at the concrete accepted archive of the
counterexample: the compressed entry of the new archive satisfies the two
equalities and the (non-strict) size inequality. -/
theorem c1_validator_size_checks_witness :
    getUncompressedSize (readFile c1NewFile 96 10) =
      ((c1NewPackage.compressedEntries.find? (fun c => tgirEqCE c
        { type := 1, group := 2, inst := 3, resource := 0, location := 96,
          size := 10, uncompressedSize := 10, compressed := true,
          repeated := false })).map CompressedEntry.uncompressedSize).getD 0 ∧
    getInt (readFile c1NewFile 96 10) 0 = 10 ∧
    getInt (readFile c1NewFile 96 10) 0 ≤
      getUncompressedSize (readFile c1NewFile 96 10) :=
  c1_validator_size_checks qfsDecompress c1OldPackage c1NewPackage c1File
    c1NewFile RECOMPRESS (by decide)
    ({ type := 1, group := 2, inst := 3, resource := 0, location := 96,
       size := 10, uncompressedSize := 10, compressed := true,
       repeated := false },
     { type := 1, group := 2, inst := 3, resource := 0, location := 96,
       size := 10, uncompressedSize := 10, compressed := true,
       repeated := false }) (by decide) (by decide)

/-! ## Inversion of the reader -/

/-- Characterization of a successful parse: the returned package is assembled
from the header, holes, signature flag, index and CLST exactly as getPackage
computes them. -/
theorem getPackage?_inv (file : List Nat) (mode : Mode) (p : Package)
    (hp : getPackage? file mode = some p) :
    ∃ entries0 clstContent,
      p.header = parseHeader (readFile file 0 96) ∧
      ¬ getFileSize file < 96 ∧
      headerChecksOk (getFileSize file) (getInt (readFile file 0 96) 0)
        p.header = true ∧
      p.holes = parseHoles
        (readFile file p.header.holeIndexLocation p.header.holeIndexSize)
        p.header.holeIndexEntryCount ∧
      checkSignature file (getFileSize file) p.header p.holes =
        some p.signature_in_package ∧
      parseIndex file (getFileSize file) (p.header.indexMinorVersion = 2)
        (readFile file p.header.indexLocation p.header.indexSize)
        p.header.indexEntryCount [] = some (entries0, clstContent) ∧
      p.compressedEntries =
        (if 0 < clstContent.length then
          parseClstRecords (p.header.indexMinorVersion = 2) clstContent
         else []) ∧
      p.entries =
        (if mode = RECOMPRESS then
          markRepeated
            (if 0 < clstContent.length then
              markCompressed
                (parseClstRecords (p.header.indexMinorVersion = 2) clstContent)
                entries0
             else entries0)
         else
          (if 0 < clstContent.length then
            markCompressed
              (parseClstRecords (p.header.indexMinorVersion = 2) clstContent)
              entries0
           else entries0)) ∧
      p.unpacked = true := by
  unfold getPackage? at hp
  by_cases h96 : getFileSize file < 96
  · rw [if_pos h96] at hp; exact absurd hp (by simp)
  rw [if_neg h96] at hp
  by_cases hck : headerChecksOk (getFileSize file) (getInt (readFile file 0 96) 0)
      (parseHeader (readFile file 0 96)) = false
  · rw [if_pos hck] at hp; exact absurd hp (by simp)
  rw [if_neg hck] at hp
  cases hsig : checkSignature file (getFileSize file)
      (parseHeader (readFile file 0 96))
      (parseHoles
        (readFile file (parseHeader (readFile file 0 96)).holeIndexLocation
          (parseHeader (readFile file 0 96)).holeIndexSize)
        (parseHeader (readFile file 0 96)).holeIndexEntryCount) with
  | none => rw [hsig] at hp; exact absurd hp (by simp)
  | some sigFlag =>
    rw [hsig] at hp
    cases hpi : parseIndex file (getFileSize file)
        ((parseHeader (readFile file 0 96)).indexMinorVersion = 2)
        (readFile file (parseHeader (readFile file 0 96)).indexLocation
          (parseHeader (readFile file 0 96)).indexSize)
        (parseHeader (readFile file 0 96)).indexEntryCount [] with
    | none => rw [hpi] at hp; exact absurd hp (by simp)
    | some ec =>
      rw [hpi] at hp
      obtain ⟨entries0, clstContent⟩ := ec
      simp only [Option.some_inj] at hp
      subst hp
      refine ⟨entries0, clstContent, rfl, h96, ?_, rfl, hsig, hpi, rfl, rfl, rfl⟩
      simpa using hck

/-- The hole parser returns exactly the requested number of holes. -/
theorem parseHoles_length (buf : List Nat) (n : Nat) :
    (parseHoles buf n).length = n := by
  induction n generalizing buf with
  | zero => rfl
  | succ k ih => simp [parseHoles, ih]

/-- Entries produced by the index parser carry fresh flags, a type that is
never the CLST type, and 32-bit field values. -/
theorem parseIndex_entries (file : List Nat) (fileSize : Nat) (v2 : Bool)
    (buf : List Nat) (n : Nat) (clst : List Nat) (es : List Entry)
    (c : List Nat)
    (hp : parseIndex file fileSize v2 buf n clst = some (es, c)) :
    ∀ e ∈ es, e.compressed = false ∧ e.repeated = false ∧
      e.uncompressedSize = 0 ∧ e.type ≠ CLST_TYPE ∧ e.type < UMOD ∧
      e.group < UMOD ∧ e.inst < UMOD ∧ e.resource < UMOD ∧
      e.location < UMOD ∧ e.size < UMOD := by
  induction n generalizing buf clst es c with
  | zero =>
    simp only [parseIndex, Option.some_inj, Prod.mk.injEq] at hp
    intro e he
    rw [← hp.1] at he
    exact absurd he (by simp)
  | succ k ih =>
    simp only [parseIndex] at hp
    by_cases hb : getInt buf (if v2 then 16 else 12) > fileSize ∨
        (getInt buf (if v2 then 16 else 12) + getInt buf (if v2 then 20 else 16)) %
          UMOD > fileSize
    · rw [if_pos hb] at hp; exact absurd hp (by simp)
    rw [if_neg hb] at hp
    by_cases ht : getInt buf 0 = CLST_TYPE
    · rw [if_pos ht] at hp
      exact ih _ _ _ _ hp
    rw [if_neg ht] at hp
    cases hrec : parseIndex file fileSize v2 (buf.drop (if v2 then 24 else 20)) k
        clst with
    | none => rw [hrec] at hp; exact absurd hp (by simp)
    | some ec2 =>
      rw [hrec] at hp
      obtain ⟨es2, c2⟩ := ec2
      simp only [Option.some_inj, Prod.mk.injEq] at hp
      obtain ⟨hp1, hp2⟩ := hp
      subst hp1
      intro e he
      rcases List.mem_cons.mp he with heq | hmem
      · subst heq
        refine ⟨rfl, rfl, rfl, ht, getInt_lt_UMOD _ _, getInt_lt_UMOD _ _,
          getInt_lt_UMOD _ _, ?_, getInt_lt_UMOD _ _, getInt_lt_UMOD _ _⟩
        by_cases hv : v2 = true
        · simp only [hv, if_true]; exact getInt_lt_UMOD _ _
        · simp only [Bool.not_eq_true] at hv
          simp only [hv]
          simp [UMOD]
      · exact ih _ _ _ _ hrec e hmem

/-- Pointwise facts about entries survive `setRepeatedAt` when they are stable
under setting the repeated flag. -/
theorem setRepeatedAt_forall (P : Entry → Prop)
    (hP : ∀ e, P e → P { e with repeated := true }) (l : List Entry) (n : Nat)
    (h : ∀ e ∈ l, P e) : ∀ e ∈ setRepeatedAt l n, P e := by
  induction l generalizing n with
  | nil => intro e he; exact absurd he (by simp [setRepeatedAt])
  | cons a rest ih =>
    intro e he
    cases n with
    | zero =>
      simp only [setRepeatedAt] at he
      rcases List.mem_cons.mp he with heq | hmem
      · subst heq; exact hP a (h a (by simp))
      · exact h e (by simp [hmem])
    | succ m =>
      simp only [setRepeatedAt] at he
      rcases List.mem_cons.mp he with heq | hmem
      · subst heq; exact h e (by simp)
      · exact ih m (fun x hx => h x (by simp [hx])) e hmem

/-- Pointwise facts about entries survive the repeated-TGIR marking when they
are stable under setting the repeated flag. -/
theorem markRepeatedGo_forall (P : Entry → Prop)
    (hP : ∀ e, P e → P { e with repeated := true }) :
    ∀ (l acc : List Entry) (emap : List (Entry × Nat)),
      (∀ e ∈ acc, P e) → (∀ e ∈ l, P e) →
      ∀ e ∈ markRepeatedGo acc emap l, P e := by
  intro l
  induction l with
  | nil => intro acc emap hacc _; exact hacc
  | cons a rest ih =>
    intro acc emap hacc h
    cases hfind : emap.find? (fun pr => tgirEqE pr.1 a) with
    | some pr =>
      simp only [markRepeatedGo, hfind]
      refine ih _ _ ?_ (fun x hx => h x (by simp [hx]))
      intro x hx
      rcases List.mem_append.mp hx with hmem | hone
      · exact setRepeatedAt_forall P hP acc pr.2 hacc x hmem
      · rw [List.mem_singleton] at hone
        subst hone
        exact hP _ (h _ (by simp))
    | none =>
      simp only [markRepeatedGo, hfind]
      refine ih _ _ ?_ (fun x hx => h x (by simp [hx]))
      intro x hx
      rcases List.mem_append.mp hx with hmem | hone
      · exact hacc x hmem
      · rw [List.mem_singleton] at hone
        subst hone
        exact h _ (by simp)

/-- Pointwise facts about entries survive `markRepeated`. -/
theorem markRepeated_forall (P : Entry → Prop)
    (hP : ∀ e, P e → P { e with repeated := true }) (l : List Entry)
    (h : ∀ e ∈ l, P e) : ∀ e ∈ markRepeated l, P e :=
  markRepeatedGo_forall P hP l [] [] (fun e he => absurd he (by simp)) h

/-- Every entry produced by the compressed-marking pass is compressed exactly
when its TGIR is among the CLST records, and then carries the uncompressed
size of the first matching record. -/
theorem tgirEqCE_mark (c : CompressedEntry) (a : Entry) (u : Nat) :
    tgirEqCE c { a with compressed := true, uncompressedSize := u } =
      tgirEqCE c a := rfl

theorem tgirEqCE_unmark (c : CompressedEntry) (a : Entry) :
    tgirEqCE c { a with compressed := false } = tgirEqCE c a := rfl

/-- Every entry produced by the compressed-marking pass is compressed exactly
when its TGIR is among the CLST records, and then carries the uncompressed
size of the first matching record. -/
theorem markCompressed_spec (ces : List CompressedEntry) (es : List Entry) :
    ∀ e ∈ markCompressed ces es,
      (e.compressed = true ↔ (ces.find? (fun c => tgirEqCE c e)).isSome) ∧
      (e.compressed = true →
        e.uncompressedSize =
          ((ces.find? (fun c => tgirEqCE c e)).map
            CompressedEntry.uncompressedSize).getD 0) := by
  intro e he
  simp only [markCompressed, List.mem_map] at he
  obtain ⟨a, _, hae⟩ := he
  subst hae
  cases hfind : ces.find? (fun c => tgirEqCE c a) with
  | some c =>
    simp [tgirEqCE_mark, hfind]
  | none =>
    simp [tgirEqCE_unmark, hfind]

/-- Pointwise facts about entries survive the compressed-marking pass when
they are stable under both possible updates. -/
theorem markCompressed_forall (Q : Entry → Prop)
    (hQ1 : ∀ e u, Q e → Q { e with compressed := true, uncompressedSize := u })
    (hQ2 : ∀ e, Q e → Q { e with compressed := false })
    (ces : List CompressedEntry) (es : List Entry) (h : ∀ e ∈ es, Q e) :
    ∀ e ∈ markCompressed ces es, Q e := by
  intro e he
  simp only [markCompressed, List.mem_map] at he
  obtain ⟨a, ha, hae⟩ := he
  subst hae
  cases ces.find? (fun c => tgirEqCE c a) with
  | some c => exact hQ1 a c.uncompressedSize (h a ha)
  | none => exact hQ2 a (h a ha)

/-! ## Claim C2 (amended): the reader marks entries compressed from CLST
membership alone -/

/-- C2 (amended): in every archive returned by the reader, an entry is marked
compressed exactly when its TGIR is among the parsed CLST records, and then
its uncompressedSize is the one recorded in the first matching CLST record.
The reader does not inspect entry payloads, so no framing-header invariant
holds for them. -/
theorem c2_reader_marks_from_clst (file : List Nat) (mode : Mode) (p : Package)
    (hp : getPackage? file mode = some p) :
    ∀ e ∈ p.entries,
      (e.compressed = true ↔
        (p.compressedEntries.find? (fun c => tgirEqCE c e)).isSome) ∧
      (e.compressed = true →
        e.uncompressedSize =
          ((p.compressedEntries.find? (fun c => tgirEqCE c e)).map
            CompressedEntry.uncompressedSize).getD 0) := by
  obtain ⟨entries0, clstContent, hhd, h96, hck, hholes, hsig, hpi, hces, hents, hunp⟩ :=
    getPackage?_inv file mode p hp
  have hP : ∀ e : Entry,
      ((e.compressed = true ↔
        (p.compressedEntries.find? (fun c => tgirEqCE c e)).isSome) ∧
       (e.compressed = true →
        e.uncompressedSize =
          ((p.compressedEntries.find? (fun c => tgirEqCE c e)).map
            CompressedEntry.uncompressedSize).getD 0)) →
      ((({ e with repeated := true } : Entry).compressed = true ↔
        (p.compressedEntries.find?
          (fun c => tgirEqCE c { e with repeated := true })).isSome) ∧
       (({ e with repeated := true } : Entry).compressed = true →
        ({ e with repeated := true } : Entry).uncompressedSize =
          ((p.compressedEntries.find?
            (fun c => tgirEqCE c { e with repeated := true })).map
            CompressedEntry.uncompressedSize).getD 0)) := by
    intro e pe
    have hfn : (fun c => tgirEqCE c { e with repeated := true }) =
        (fun c => tgirEqCE c e) := rfl
    rw [hfn]
    exact pe
  have hbase : ∀ e ∈ (if 0 < clstContent.length then
      markCompressed
        (parseClstRecords (p.header.indexMinorVersion = 2) clstContent) entries0
     else entries0),
      (e.compressed = true ↔
        (p.compressedEntries.find? (fun c => tgirEqCE c e)).isSome) ∧
      (e.compressed = true →
        e.uncompressedSize =
          ((p.compressedEntries.find? (fun c => tgirEqCE c e)).map
            CompressedEntry.uncompressedSize).getD 0) := by
    by_cases hcl : 0 < clstContent.length
    · rw [if_pos hcl]
      rw [if_pos hcl] at hces
      rw [hces]
      exact markCompressed_spec _ entries0
    · rw [if_neg hcl]
      rw [if_neg hcl] at hces
      intro e he
      have hcf := (parseIndex_entries file (getFileSize file) _ _ _ _ _ _ hpi e he).1
      rw [hces, hcf]
      simp
  rw [hents]
  by_cases hm : mode = RECOMPRESS
  · rw [if_pos hm]
    exact markRepeated_forall _ hP _ hbase
  · rw [if_neg hm]
    exact hbase

set_option maxRecDepth 1000000 in
/-- Witness for the amended C2 at the concrete archive of the counterexample:
the entry marked compressed has its TGIR in the CLST with uncompressed size
42, which the entry carries. -/
theorem c2_reader_marks_from_clst_witness :
    (({ type := 1, group := 2, inst := 3, resource := 0, location := 96,
        size := 0, uncompressedSize := 42, compressed := true,
        repeated := false } : Entry).compressed = true ↔
      (c2Package.compressedEntries.find? (fun c => tgirEqCE c
        { type := 1, group := 2, inst := 3, resource := 0, location := 96,
          size := 0, uncompressedSize := 42, compressed := true,
          repeated := false })).isSome) ∧
    (({ type := 1, group := 2, inst := 3, resource := 0, location := 96,
        size := 0, uncompressedSize := 42, compressed := true,
        repeated := false } : Entry).compressed = true →
      ({ type := 1, group := 2, inst := 3, resource := 0, location := 96,
         size := 0, uncompressedSize := 42, compressed := true,
         repeated := false } : Entry).uncompressedSize =
        ((c2Package.compressedEntries.find? (fun c => tgirEqCE c
          { type := 1, group := 2, inst := 3, resource := 0, location := 96,
            size := 0, uncompressedSize := 42, compressed := true,
            repeated := false })).map CompressedEntry.uncompressedSize).getD 0) :=
  c2_reader_marks_from_clst c2File RECOMPRESS c2Package (by decide) _ (by decide)

/-! ## Claim C7: signature detection -/

/-- C7: for every archive the reader returns, the signature flag is set
exactly when the hole table holds exactly one hole, of size 8, whose first
four bytes are the signature word and whose last four bytes (u32 LE) equal
the file size; without the flag a RECOMPRESS run keeps recompressing (the
skip optimization of main does not fire). -/
theorem c7_signature_detection (file : List Nat) (mode : Mode) (p : Package)
    (hp : getPackage? file mode = some p) :
    (p.signature_in_package = true ↔
      (p.holes.length = 1 ∧ (p.holes.headD ⟨0, 0⟩).size = 8 ∧
       getInt (readFile file (p.holes.headD ⟨0, 0⟩).location 8) 0 = SIGNATURE ∧
       getInt (readFile file (p.holes.headD ⟨0, 0⟩).location 8) 4 =
         getFileSize file)) ∧
    (p.signature_in_package = false → effectiveMode p RECOMPRESS = RECOMPRESS) := by
  obtain ⟨entries0, clstContent, hhd, h96, hck, hholes, hsig, hpi, hces, hents, hunp⟩ :=
    getPackage?_inv file mode p hp
  have hlen : p.holes.length = p.header.holeIndexEntryCount := by
    rw [hholes]; exact parseHoles_length _ _
  constructor
  · unfold checkSignature at hsig
    by_cases hc : p.header.holeIndexEntryCount = 1 ∧ (p.holes.headD ⟨0, 0⟩).size = 8
    · rw [if_pos hc] at hsig
      by_cases hb : (p.holes.headD ⟨0, 0⟩).location > getFileSize file ∨
          ((p.holes.headD ⟨0, 0⟩).location + (p.holes.headD ⟨0, 0⟩).size) % UMOD >
            getFileSize file
      · rw [if_pos hb] at hsig
        exact absurd hsig (by simp)
      · rw [if_neg hb] at hsig
        simp only [Option.some_inj] at hsig
        rw [← hsig]
        constructor
        · intro hflag
          simp only [Bool.and_eq_true, beq_iff_eq] at hflag
          exact ⟨by omega, hc.2, hflag.1, hflag.2⟩
        · intro hr
          simp only [Bool.and_eq_true, beq_iff_eq]
          exact ⟨hr.2.2.1, hr.2.2.2⟩
    · rw [if_neg hc] at hsig
      simp only [Option.some_inj] at hsig
      rw [← hsig]
      simp only [Bool.false_eq_true, false_iff]
      intro hr
      exact hc ⟨by omega, hr.2.1⟩
  · intro hsf
    unfold effectiveMode
    rw [if_neg (by simp [hsf]), if_neg (by simp)]

/-- Witness for C7 at a concrete archive carrying a valid signature hole:
the flag is set and the four conditions hold. -/
def c7File : List Nat :=
  mkTestHeader 0 0 0 1 96 8 ++ (encodeU32 104 ++ encodeU32 8) ++
  (encodeU32 SIGNATURE ++ encodeU32 112)

/-- The parse of `c7File`. -/
def c7Package : Package where
  unpacked := true
  signature_in_package := true
  header :=
    { majorVersion := 1, minorVersion := 1, majorUserVersion := 0,
      minorUserVersion := 0, flags := 0, createdDate := 0, modifiedDate := 0,
      indexMajorVersion := 7, indexEntryCount := 0, indexLocation := 0,
      indexSize := 0, holeIndexEntryCount := 1, holeIndexLocation := 96,
      holeIndexSize := 8, indexMinorVersion := 0,
      remainder := List.replicate 32 0 }
  entries := []
  holes := [{ location := 104, size := 8 }]
  compressedEntries := []

set_option maxRecDepth 1000000 in
/-- Witness for C7: the signature iff evaluated at `c7File`. -/
theorem c7_signature_detection_witness :
    c7Package.signature_in_package = true ↔
      (c7Package.holes.length = 1 ∧ (c7Package.holes.headD ⟨0, 0⟩).size = 8 ∧
       getInt (readFile c7File (c7Package.holes.headD ⟨0, 0⟩).location 8) 0 =
         SIGNATURE ∧
       getInt (readFile c7File (c7Package.holes.headD ⟨0, 0⟩).location 8) 4 =
         getFileSize c7File) :=
  (c7_signature_detection c7File RECOMPRESS c7Package (by decide)).1

/-! ## Claim C8: the CLST is regenerated exactly from the compressed
entries -/

theorem bytes_recombine (x : Nat) :
    x % 256 % 256 + 256 * (x / 256 % 256 % 256) + 65536 * (x / 65536 % 256 % 256) +
      16777216 * (x / 16777216 % 256 % 256) = x % UMOD := by
  unfold UMOD; omega

theorem clstRecord_length (v2 : Bool) (e : Entry) :
    (clstRecord v2 e).length = if v2 then 20 else 16 := by
  cases v2 <;> simp [clstRecord, encodeU32]

/-- The CLST payload is nonempty exactly when some entry is compressed. -/
theorem buildClst_pos_iff (v2 : Bool) (l : List Entry) :
    0 < (buildClst v2 l).length ↔ l.any (fun e => e.compressed) = true := by
  induction l with
  | nil => simp [buildClst]
  | cons e rest ih =>
    by_cases hc : e.compressed = true
    · have h16 : 0 < (clstRecord v2 e).length := by
        rw [clstRecord_length]; cases v2 <;> simp
      simp [buildClst, hc, List.any_cons]
      omega
    · simp only [Bool.not_eq_true] at hc
      simp [buildClst, hc, List.any_cons, ih]

/-- Parsing the generated CLST payload (with enough fuel) yields exactly one
record per compressed entry, in order, and none for uncompressed entries. -/
theorem parseClstGo_buildClst (v2 : Bool) :
    ∀ (es : List Entry) (fuel : Nat), (buildClst v2 es).length ≤ fuel →
      parseClstGo v2 fuel (buildClst v2 es) =
        es.filterMap (fun e => if e.compressed = true then
          some { type := e.type % UMOD, group := e.group % UMOD,
                 inst := e.inst % UMOD,
                 resource := if v2 then e.resource % UMOD else 0,
                 uncompressedSize := e.uncompressedSize % UMOD }
         else none) := by
  intro es
  induction es with
  | nil =>
    intro fuel _
    cases fuel <;> simp [buildClst, parseClstGo]
  | cons e rest ih =>
    intro fuel hf
    by_cases hc : e.compressed = true
    · have hbc : buildClst v2 (e :: rest) = clstRecord v2 e ++ buildClst v2 rest := by
        simp [buildClst, hc]
      have hrl : (clstRecord v2 e).length = if v2 then 20 else 16 :=
        clstRecord_length v2 e
      rw [hbc] at hf ⊢
      have hfl : (clstRecord v2 e ++ buildClst v2 rest).length =
          (if v2 then 20 else 16) + (buildClst v2 rest).length := by
        simp [hrl]
      cases fuel with
      | zero =>
        exfalso
        rw [hfl] at hf
        cases v2 <;> simp at hf
      | succ f =>
        rcases hL : clstRecord v2 e ++ buildClst v2 rest with _ | ⟨b, l⟩
        · exfalso
          have := congrArg List.length hL
          rw [hfl] at this
          cases v2 <;> simp at this
        · simp only [parseClstGo]
          rw [← hL]
          rw [List.filterMap_cons]
          simp only [hc, if_true]
          congr 1
          · simp only [CompressedEntry.mk.injEq]
            refine ⟨?_, ?_, ?_, ?_, ?_⟩
            · cases v2 <;> exact bytes_recombine e.type
            · cases v2 <;> exact bytes_recombine e.group
            · cases v2 <;> exact bytes_recombine e.inst
            · cases v2
              · simp
              · simp only [if_true]
                exact bytes_recombine e.resource
            · cases v2
              · simp only [Bool.false_eq_true, if_false]
                exact bytes_recombine e.uncompressedSize
              · simp only [if_true]
                exact bytes_recombine e.uncompressedSize
          · have hdrop : (clstRecord v2 e ++ buildClst v2 rest).drop
                (if v2 then 20 else 16) = buildClst v2 rest := by
              rw [show ((if v2 then 20 else 16) : Nat) = (clstRecord v2 e).length
                from (clstRecord_length v2 e).symm]
              exact List.drop_left _ _
            rw [hdrop]
            refine ih f ?_
            rw [hfl] at hf
            cases v2 <;> simp at hf ⊢ <;> omega
    · simp only [Bool.not_eq_true] at hc
      have hbc : buildClst v2 (e :: rest) = buildClst v2 rest := by
        simp [buildClst, hc]
      rw [hbc] at hf ⊢
      rw [List.filterMap_cons]
      simp only [hc, Bool.false_eq_true, if_false]
      exact ih fuel hf

/-- Parsing the generated CLST payload yields exactly one record per
compressed entry and none for an uncompressed entry. -/
theorem parseClstRecords_buildClst (v2 : Bool) (es : List Entry) :
    parseClstRecords v2 (buildClst v2 es) =
      es.filterMap (fun e => if e.compressed = true then
        some { type := e.type % UMOD, group := e.group % UMOD,
               inst := e.inst % UMOD,
               resource := if v2 then e.resource % UMOD else 0,
               uncompressedSize := e.uncompressedSize % UMOD }
       else none) :=
  parseClstGo_buildClst v2 es (buildClst v2 es).length (le_refl _)

/-- The writer appends the CLST entry (with its fixed TGIR) exactly once when
some transformed entry is compressed, and never otherwise. -/
theorem putPackage_entries (qc : QfsCompress) (qd : QfsDecompress)
    (oldFile : List Nat) (p : Package) (mode : Mode) :
    (putPackage qc qd oldFile p mode).2.entries =
      (if (writeEntries qc qd oldFile mode p.entries
            (putHeaderBytes p.header)).1.any (fun e => e.compressed) then
        (writeEntries qc qd oldFile mode p.entries (putHeaderBytes p.header)).1 ++
          [{ type := CLST_TYPE, group := CLST_TYPE, inst := 0x286B1F03,
             resource := 0,
             location := (writeEntries qc qd oldFile mode p.entries
               (putHeaderBytes p.header)).2.length,
             size := (buildClst (p.header.indexMinorVersion = 2)
               (writeEntries qc qd oldFile mode p.entries
                 (putHeaderBytes p.header)).1).length }]
       else
        (writeEntries qc qd oldFile mode p.entries (putHeaderBytes p.header)).1) := by
  by_cases hcl : (writeEntries qc qd oldFile mode p.entries
      (putHeaderBytes p.header)).1.any (fun e => e.compressed) = true
  · rw [if_pos hcl]
    have hpos : 0 < (buildClst (p.header.indexMinorVersion = 2)
        (writeEntries qc qd oldFile mode p.entries
          (putHeaderBytes p.header)).1).length :=
      (buildClst_pos_iff _ _).mpr hcl
    simp only [putPackage]
    rw [if_pos hpos]
  · rw [if_neg hcl]
    have hpos : ¬ 0 < (buildClst (p.header.indexMinorVersion = 2)
        (writeEntries qc qd oldFile mode p.entries
          (putHeaderBytes p.header)).1).length :=
      fun h => hcl ((buildClst_pos_iff _ _).mp h)
    simp only [putPackage]
    rw [if_neg hpos]

/-- The reader never places a CLST-typed entry in the entries it returns. -/
theorem getPackage?_no_clst_entries (f : List Nat) (m : Mode) (q : Package)
    (hq : getPackage? f m = some q) : ∀ e ∈ q.entries, e.type ≠ CLST_TYPE := by
  obtain ⟨entries0, clstContent, hhd, h96, hck, hholes, hsig, hpi, hces, hents, hunp⟩ :=
    getPackage?_inv f m q hq
  have h0 : ∀ e ∈ entries0, e.type ≠ CLST_TYPE := fun e he =>
    (parseIndex_entries f (getFileSize f) _ _ _ _ _ _ hpi e he).2.2.2.1
  have hbase : ∀ e ∈ (if 0 < clstContent.length then
      markCompressed
        (parseClstRecords (q.header.indexMinorVersion = 2) clstContent) entries0
     else entries0), e.type ≠ CLST_TYPE := by
    by_cases hcl : 0 < clstContent.length
    · rw [if_pos hcl]
      exact markCompressed_forall (fun e => e.type ≠ CLST_TYPE)
        (fun e u h => h) (fun e h => h) _ _ h0
    · rw [if_neg hcl]
      exact h0
  rw [hents]
  by_cases hm : m = RECOMPRESS
  · rw [if_pos hm]
    exact markRepeated_forall (fun e => e.type ≠ CLST_TYPE) (fun e h => h) _ hbase
  · rw [if_neg hm]
    exact hbase

/-- C8: the writer appends the CLST entry with TGIR
(0xE86B1EEF, 0xE86B1EEF, 0x286B1F03, 0) to the entries exactly once when at
least one entry is compressed and never otherwise; parsing its payload yields
exactly one record per compressed entry (in order) and none for an
uncompressed entry; and the reader never returns a CLST-typed entry. -/
theorem c8_clst_generation (qc : QfsCompress) (qd : QfsDecompress)
    (oldFile : List Nat) (p : Package) (mode : Mode) :
    ((putPackage qc qd oldFile p mode).2.entries =
      (if (writeEntries qc qd oldFile mode p.entries
            (putHeaderBytes p.header)).1.any (fun e => e.compressed) then
        (writeEntries qc qd oldFile mode p.entries (putHeaderBytes p.header)).1 ++
          [{ type := CLST_TYPE, group := CLST_TYPE, inst := 0x286B1F03,
             resource := 0,
             location := (writeEntries qc qd oldFile mode p.entries
               (putHeaderBytes p.header)).2.length,
             size := (buildClst (p.header.indexMinorVersion = 2)
               (writeEntries qc qd oldFile mode p.entries
                 (putHeaderBytes p.header)).1).length }]
       else
        (writeEntries qc qd oldFile mode p.entries (putHeaderBytes p.header)).1)) ∧
    (∀ (v2 : Bool) (es : List Entry),
      parseClstRecords v2 (buildClst v2 es) =
        es.filterMap (fun e => if e.compressed = true then
          some { type := e.type % UMOD, group := e.group % UMOD,
                 inst := e.inst % UMOD,
                 resource := if v2 then e.resource % UMOD else 0,
                 uncompressedSize := e.uncompressedSize % UMOD }
         else none)) ∧
    (∀ (f : List Nat) (m : Mode) (q : Package), getPackage? f m = some q →
      ∀ e ∈ q.entries, e.type ≠ CLST_TYPE) :=
  ⟨putPackage_entries qc qd oldFile p mode,
   fun v2 es => parseClstRecords_buildClst v2 es,
   getPackage?_no_clst_entries⟩

set_option maxRecDepth 1000000 in
/-- Witness for C8 at concrete inputs: with a codec that never succeeds, the
rewrite of the counterexample archive keeps its compressed entry and appends
exactly one CLST entry; the regenerated CLST parses back to the one record;
and the parsed counterexample archive has no CLST-typed entry. -/
theorem c8_clst_generation_witness :
    (putPackage (fun _ _ => none) (fun _ _ => none) c1File c1OldPackage
      RECOMPRESS).2.entries =
      [{ type := 1, group := 2, inst := 3, resource := 0, location := 96,
         size := 10, uncompressedSize := 10, compressed := true,
         repeated := false },
       { type := CLST_TYPE, group := CLST_TYPE, inst := 0x286B1F03,
         resource := 0, location := 106, size := 16 }] ∧
    parseClstRecords false (buildClst false
      [{ type := 1, group := 2, inst := 3, resource := 0, location := 96,
         size := 10, uncompressedSize := 10, compressed := true,
         repeated := false }]) =
      [{ type := 1, group := 2, inst := 3, resource := 0,
         uncompressedSize := 10 }] ∧
    (1 : Nat) ≠ CLST_TYPE := by
  have h := c8_clst_generation (fun _ _ => none) (fun _ _ => none) c1File
    c1OldPackage RECOMPRESS
  refine ⟨?_, ?_, ?_⟩
  · rw [h.1]; decide
  · rw [h.2.1 false]; decide
  · exact h.2.2 c2File RECOMPRESS c2Package (by decide)
      { type := 1, group := 2, inst := 3, resource := 0, location := 96,
        size := 0, uncompressedSize := 42, compressed := true,
        repeated := false } (by decide)

/-! ## Parsing the writer output (infrastructure for C3 and C4) -/

theorem putHeaderBytes_length (h : Header) : (putHeaderBytes h).length = 96 := by
  simp [putHeaderBytes, encodeU32]
  omega

theorem writeAt_length (f : List Nat) (pos : Nat) (data : List Nat)
    (h : pos + data.length ≤ f.length) : (writeAt f pos data).length = f.length := by
  simp [writeAt]
  omega

theorem writeAt_append_left (A B : List Nat) (pos : Nat) (data : List Nat)
    (h : pos + data.length ≤ A.length) :
    writeAt (A ++ B) pos data = writeAt A pos data ++ B := by
  unfold writeAt
  rw [List.take_append_of_le_length (by omega),
    List.drop_append_of_le_length h]
  simp

/-- The file grown by the entry-writing loop extends the given prefix. -/
theorem writeEntries_ext (qc : QfsCompress) (qd : QfsDecompress)
    (oldFile : List Nat) (mode : Mode) :
    ∀ (l : List Entry) (f : List Nat),
      ∃ tail, (writeEntries qc qd oldFile mode l f).2 = f ++ tail := by
  intro l
  induction l with
  | nil => intro f; exact ⟨[], by simp [writeEntries]⟩
  | cons e rest ih =>
    intro f
    obtain ⟨tail, htail⟩ := ih
      (f ++ (transformContent qc qd mode e (readFile oldFile e.location e.size)).2)
    exact ⟨(transformContent qc qd mode e (readFile oldFile e.location e.size)).2 ++
      tail, by simp [writeEntries, htail]⟩

/-- Every entry written by the loop lies within the grown file. -/
theorem writeEntries_bounds (qc : QfsCompress) (qd : QfsDecompress)
    (oldFile : List Nat) (mode : Mode) :
    ∀ (l : List Entry) (f : List Nat),
      ∀ e ∈ (writeEntries qc qd oldFile mode l f).1,
        e.location + e.size ≤ (writeEntries qc qd oldFile mode l f).2.length := by
  intro l
  induction l with
  | nil => intro f e he; exact absurd he (by simp [writeEntries])
  | cons a rest ih =>
    intro f e he
    simp only [writeEntries] at he ⊢
    rcases List.mem_cons.mp he with heq | hmem
    · subst heq
      obtain ⟨tail, htail⟩ := writeEntries_ext qc qd oldFile mode rest
        (f ++ (transformContent qc qd mode a (readFile oldFile a.location a.size)).2)
      rw [htail]
      simp
    · exact ih _ e hmem

/-- In DECOMPRESS mode the written entries keep their TGIR fields and, when
every compressed input payload decompresses, none stays compressed. -/
theorem writeEntries_decompress (qd : QfsDecompress) (qc : QfsCompress)
    (oldFile : List Nat) :
    ∀ (l : List Entry) (f : List Nat),
      (∀ e ∈ l, e.compressed = true →
        (qd (readFile oldFile e.location e.size)
          (getUncompressedSize (readFile oldFile e.location e.size))).isSome = true) →
      ∀ e2 ∈ (writeEntries qc qd oldFile DECOMPRESS l f).1,
        e2.compressed = false ∧ ∃ e ∈ l, e2.type = e.type := by
  intro l
  induction l with
  | nil => intro f _ e2 he2; exact absurd he2 (by simp [writeEntries])
  | cons a rest ih =>
    intro f hdec e2 he2
    simp only [writeEntries] at he2
    rcases List.mem_cons.mp he2 with heq | hmem
    · subst heq
      have htr : (transformContent qc qd DECOMPRESS a
            (readFile oldFile a.location a.size)).1.compressed = false ∧
          (transformContent qc qd DECOMPRESS a
            (readFile oldFile a.location a.size)).1.type = a.type := by
        unfold transformContent
        rw [if_neg (by simp), if_pos rfl]
        unfold decompressEntry
        by_cases hc : a.compressed = true
        · rw [if_pos hc]
          have := hdec a (by simp) hc
          cases hq : qd (readFile oldFile a.location a.size)
              (getUncompressedSize (readFile oldFile a.location a.size)) with
          | none => rw [hq] at this; exact absurd this (by simp)
          | some nc => exact ⟨rfl, rfl⟩
        · simp only [Bool.not_eq_true] at hc
          rw [if_neg (by simp [hc])]
          exact ⟨hc, rfl⟩
      refine ⟨htr.1, a, by simp, htr.2⟩
    · obtain ⟨h1, e, he, h2⟩ := ih _ (fun x hx hcx => hdec x (by simp [hx]) hcx) e2 hmem
      exact ⟨h1, e, by simp [he], h2⟩

theorem indexRecord_length (v2 : Bool) (e : Entry) :
    (indexRecord v2 e).length = if v2 then 24 else 20 := by
  cases v2 <;> simp [indexRecord, encodeU32]

theorem buildIndex_length (v2 : Bool) (es : List Entry) :
    (buildIndex v2 es).length = (if v2 then 24 else 20) * es.length := by
  induction es with
  | nil => cases v2 <;> simp [buildIndex]
  | cons e rest ih =>
    simp [buildIndex, indexRecord_length, ih]
    cases v2 <;> simp <;> ring

theorem getInt_indexRecord_type (v2 : Bool) (e : Entry) (T : List Nat) :
    getInt (indexRecord v2 e ++ T) 0 = e.type % UMOD := by
  cases v2 <;> exact bytes_recombine e.type

theorem getInt_indexRecord_location (v2 : Bool) (e : Entry) (T : List Nat) :
    getInt (indexRecord v2 e ++ T) (if v2 then 16 else 12) = e.location % UMOD := by
  cases v2 <;> exact bytes_recombine e.location

theorem getInt_indexRecord_size (v2 : Bool) (e : Entry) (T : List Nat) :
    getInt (indexRecord v2 e ++ T) (if v2 then 20 else 16) = e.size % UMOD := by
  cases v2 <;> exact bytes_recombine e.size

theorem indexRecord_drop (v2 : Bool) (e : Entry) (T : List Nat) :
    (indexRecord v2 e ++ T).drop (if v2 then 24 else 20) = T := by
  cases v2 <;> rfl

/-- Parsing the index the writer built always succeeds when every entry fits
in the file (the CLST branch and the entry branch both continue). -/
theorem parseIndex_buildIndex_some (file : List Nat) (fs : Nat) (v2 : Bool)
    (hfs : fs < UMOD) :
    ∀ (es : List Entry) (clst : List Nat),
      (∀ e ∈ es, e.location + e.size ≤ fs) →
      ∃ es2 c2, parseIndex file fs v2 (buildIndex v2 es) es.length clst =
        some (es2, c2) := by
  intro es
  induction es with
  | nil => intro clst _; exact ⟨[], clst, rfl⟩
  | cons e rest ih =>
    intro clst hb
    have hloc : e.location + e.size ≤ fs := hb e (by simp)
    have hbc : buildIndex v2 (e :: rest) = indexRecord v2 e ++ buildIndex v2 rest :=
      rfl
    rw [hbc]
    simp only [List.length_cons, parseIndex, getInt_indexRecord_location,
      getInt_indexRecord_size, getInt_indexRecord_type, indexRecord_drop]
    rw [if_neg (by
      push_neg
      simp only [UMOD] at hfs ⊢
      constructor <;> omega)]
    by_cases ht : e.type % UMOD = CLST_TYPE
    · rw [if_pos ht]
      exact ih _ (fun x hx => hb x (by simp [hx]))
    · rw [if_neg ht]
      obtain ⟨es2, c2, h2⟩ := ih clst (fun x hx => hb x (by simp [hx]))
      rw [h2]
      exact ⟨_, _, rfl⟩

/-- Parsing the index the writer built, when no entry has the CLST type,
returns the CLST accumulator unchanged. -/
theorem parseIndex_buildIndex_noclst (file : List Nat) (fs : Nat) (v2 : Bool)
    (hfs : fs < UMOD) :
    ∀ (es : List Entry) (clst : List Nat),
      (∀ e ∈ es, e.location + e.size ≤ fs) →
      (∀ e ∈ es, e.type % UMOD ≠ CLST_TYPE) →
      ∃ es2, parseIndex file fs v2 (buildIndex v2 es) es.length clst =
        some (es2, clst) := by
  intro es
  induction es with
  | nil => intro clst _ _; exact ⟨[], rfl⟩
  | cons e rest ih =>
    intro clst hb ht
    have hloc : e.location + e.size ≤ fs := hb e (by simp)
    rw [show buildIndex v2 (e :: rest) = indexRecord v2 e ++ buildIndex v2 rest
      from rfl]
    simp only [List.length_cons, parseIndex, getInt_indexRecord_location,
      getInt_indexRecord_size, getInt_indexRecord_type, indexRecord_drop]
    rw [if_neg (by
      push_neg
      simp only [UMOD] at hfs ⊢
      constructor <;> omega)]
    rw [if_neg (ht e (by simp))]
    obtain ⟨es2, h2⟩ := ih clst (fun x hx => hb x (by simp [hx]))
      (fun x hx => ht x (by simp [hx]))
    rw [h2]
    exact ⟨_, rfl⟩

theorem replicate12_encode : List.replicate 12 (0 : Nat) =
    encodeU32 0 ++ encodeU32 0 ++ encodeU32 0 := rfl

theorem getInt_encodeU32_skip4 (a : Nat) (l : List Nat) (k : Nat) :
    getInt (encodeU32 a ++ l) (k + 4) = getInt l k := rfl

theorem take_encodeU32_skip (a : Nat) (l : List Nat) (k : Nat) :
    (encodeU32 a ++ l).take (k + 4) = encodeU32 a ++ l.take k := rfl

theorem drop_encodeU32_skip (a : Nat) (l : List Nat) (k : Nat) :
    (encodeU32 a ++ l).drop (k + 4) = l.drop k := rfl

theorem drop_replicate24_skip (l : List Nat) (k : Nat) :
    (List.replicate 24 (0 : Nat) ++ l).drop (k + 24) = l.drop k := rfl

/-- The header the writer wrote, after the patch at offset 36, laid out as a
flat concatenation. -/
theorem putHeader_patched_decomp (h : Header) (q1 q2 q3 q4 q5 q6 : Nat) :
    writeAt (putHeaderBytes h) 36
      (encodeU32 q1 ++ encodeU32 q2 ++ encodeU32 q3 ++ encodeU32 q4 ++
        encodeU32 q5 ++ encodeU32 q6) =
      encodeU32 DBPF_MAGIC ++ encodeU32 h.majorVersion ++
      encodeU32 h.minorVersion ++ encodeU32 h.majorUserVersion ++
      encodeU32 h.minorUserVersion ++ encodeU32 h.flags ++
      encodeU32 h.createdDate ++ encodeU32 h.modifiedDate ++
      encodeU32 h.indexMajorVersion ++ encodeU32 q1 ++ encodeU32 q2 ++
      encodeU32 q3 ++ encodeU32 q4 ++ encodeU32 q5 ++ encodeU32 q6 ++
      encodeU32 h.indexMinorVersion ++
      (h.remainder.take 32 ++ List.replicate (32 - h.remainder.length) 0) := by
  unfold writeAt putHeaderBytes
  have hlen : (encodeU32 q1 ++ encodeU32 q2 ++ encodeU32 q3 ++ encodeU32 q4 ++
      encodeU32 q5 ++ encodeU32 q6).length = 24 := by
    simp [encodeU32]
  rw [hlen]
  norm_num
  simp only [take_encodeU32_skip, drop_encodeU32_skip, drop_replicate24_skip,
    List.take_zero, List.drop_zero, List.append_nil, List.nil_append,
    List.append_assoc]

/-- Reading the header fields back from the patched header the writer
produced. -/
theorem parseHeader_patched (h : Header) (q1 q2 q3 q4 q5 q6 : Nat) :
    parseHeader (writeAt (putHeaderBytes h) 36
      (encodeU32 q1 ++ encodeU32 q2 ++ encodeU32 q3 ++ encodeU32 q4 ++
        encodeU32 q5 ++ encodeU32 q6)) =
      { majorVersion := h.majorVersion % UMOD,
        minorVersion := h.minorVersion % UMOD,
        majorUserVersion := h.majorUserVersion % UMOD,
        minorUserVersion := h.minorUserVersion % UMOD,
        flags := h.flags % UMOD,
        createdDate := h.createdDate % UMOD,
        modifiedDate := h.modifiedDate % UMOD,
        indexMajorVersion := h.indexMajorVersion % UMOD,
        indexEntryCount := q1 % UMOD,
        indexLocation := q2 % UMOD,
        indexSize := q3 % UMOD,
        holeIndexEntryCount := q4 % UMOD,
        holeIndexLocation := q5 % UMOD,
        holeIndexSize := q6 % UMOD,
        indexMinorVersion := h.indexMinorVersion % UMOD,
        remainder := h.remainder.take 32 ++
          List.replicate (32 - h.remainder.length) 0 } := by
  rw [putHeader_patched_decomp]
  unfold parseHeader
  simp only [List.append_assoc, Header.mk.injEq]
  refine ⟨?_, ?_, ?_, ?_, ?_, ?_, ?_, ?_, ?_, ?_, ?_, ?_, ?_, ?_, ?_, ?_⟩ <;>
    simp only [getInt_encodeU32_skip4, getInt_encodeU32, drop_encodeU32_skip,
      List.drop_zero]

/-- The magic word read back from the patched header. -/
theorem getInt_patched_magic (h : Header) (q1 q2 q3 q4 q5 q6 : Nat) :
    getInt (writeAt (putHeaderBytes h) 36
      (encodeU32 q1 ++ encodeU32 q2 ++ encodeU32 q3 ++ encodeU32 q4 ++
        encodeU32 q5 ++ encodeU32 q6)) 0 = DBPF_MAGIC := by
  rw [putHeader_patched_decomp]
  simp only [List.append_assoc, getInt_encodeU32]
  decide

/-- The entries and file contents of the writer after the optional CLST
append (the state called entries2 and file2 inside putPackage). -/
def entriesFileOut (qc : QfsCompress) (qd : QfsDecompress) (oldFile : List Nat)
    (p : Package) (mode : Mode) : List Entry × List Nat :=
  let w := writeEntries qc qd oldFile mode p.entries (putHeaderBytes p.header)
  let clstContent := buildClst (p.header.indexMinorVersion = 2) w.1
  if 0 < clstContent.length then
    (w.1 ++ [{ type := CLST_TYPE, group := CLST_TYPE, inst := 0x286B1F03,
               resource := 0, location := w.2.length, size := clstContent.length }],
     w.2 ++ clstContent)
  else
    (w.1, w.2)

/-- The writer file up to the end of the index (the state called file3 inside
putPackage). -/
def indexedFileOut (qc : QfsCompress) (qd : QfsDecompress) (oldFile : List Nat)
    (p : Package) (mode : Mode) : List Nat :=
  (entriesFileOut qc qd oldFile p mode).2 ++
    buildIndex (p.header.indexMinorVersion = 2) (entriesFileOut qc qd oldFile p mode).1

theorem putPackage_recompress_eq (qc : QfsCompress) (qd : QfsDecompress)
    (oldFile : List Nat) (p : Package) :
    putPackage qc qd oldFile p RECOMPRESS =
      (writeAt
        (indexedFileOut qc qd oldFile p RECOMPRESS ++
          encodeU32 ((indexedFileOut qc qd oldFile p RECOMPRESS).length + 8) ++
          encodeU32 8 ++ encodeU32 SIGNATURE ++
          encodeU32 ((indexedFileOut qc qd oldFile p RECOMPRESS).length + 16))
        36
        (encodeU32 (entriesFileOut qc qd oldFile p RECOMPRESS).1.length ++
          encodeU32 (entriesFileOut qc qd oldFile p RECOMPRESS).2.length ++
          encodeU32 ((indexedFileOut qc qd oldFile p RECOMPRESS).length -
            (entriesFileOut qc qd oldFile p RECOMPRESS).2.length) ++
          (encodeU32 1 ++
            encodeU32 (indexedFileOut qc qd oldFile p RECOMPRESS).length ++
            encodeU32 8)),
       { p with entries := (entriesFileOut qc qd oldFile p RECOMPRESS).1 }) := rfl

theorem putPackage_decompress_eq (qc : QfsCompress) (qd : QfsDecompress)
    (oldFile : List Nat) (p : Package) :
    putPackage qc qd oldFile p DECOMPRESS =
      (writeAt (indexedFileOut qc qd oldFile p DECOMPRESS) 36
        (encodeU32 (entriesFileOut qc qd oldFile p DECOMPRESS).1.length ++
          encodeU32 (entriesFileOut qc qd oldFile p DECOMPRESS).2.length ++
          encodeU32 ((indexedFileOut qc qd oldFile p DECOMPRESS).length -
            (entriesFileOut qc qd oldFile p DECOMPRESS).2.length) ++
          List.replicate 12 0),
       { p with entries := (entriesFileOut qc qd oldFile p DECOMPRESS).1 }) := rfl

/-- The file after the optional CLST append still extends the header. -/
theorem entriesFileOut_ext (qc : QfsCompress) (qd : QfsDecompress)
    (oldFile : List Nat) (p : Package) (mode : Mode) :
    ∃ tail, (entriesFileOut qc qd oldFile p mode).2 =
      putHeaderBytes p.header ++ tail := by
  unfold entriesFileOut
  obtain ⟨t, ht⟩ := writeEntries_ext qc qd oldFile mode p.entries
    (putHeaderBytes p.header)
  by_cases hcl : 0 < (buildClst (p.header.indexMinorVersion = 2)
      (writeEntries qc qd oldFile mode p.entries (putHeaderBytes p.header)).1).length
  · rw [if_pos hcl]
    exact ⟨t ++ buildClst (p.header.indexMinorVersion = 2)
      (writeEntries qc qd oldFile mode p.entries (putHeaderBytes p.header)).1,
      by simp [ht]⟩
  · rw [if_neg hcl]
    exact ⟨t, ht⟩

/-- Every entry after the optional CLST append fits in the file so far. -/
theorem entriesFileOut_bounds (qc : QfsCompress) (qd : QfsDecompress)
    (oldFile : List Nat) (p : Package) (mode : Mode) :
    ∀ e ∈ (entriesFileOut qc qd oldFile p mode).1,
      e.location + e.size ≤ (entriesFileOut qc qd oldFile p mode).2.length := by
  unfold entriesFileOut
  by_cases hcl : 0 < (buildClst (p.header.indexMinorVersion = 2)
      (writeEntries qc qd oldFile mode p.entries (putHeaderBytes p.header)).1).length
  · rw [if_pos hcl]
    intro e he
    rcases List.mem_append.mp he with hmem | hone
    · have := writeEntries_bounds qc qd oldFile mode p.entries
        (putHeaderBytes p.header) e hmem
      simp only [List.length_append]
      omega
    · rw [List.mem_singleton] at hone
      subst hone
      simp
  · rw [if_neg hcl]
    intro e he
    exact writeEntries_bounds qc qd oldFile mode p.entries (putHeaderBytes p.header)
      e he

/-- The version facts guaranteed by the header checks. -/
theorem headerChecksOk_fields (fs magic : Nat) (hd : Header)
    (h : headerChecksOk fs magic hd = true) :
    hd.majorVersion = 1 ∧
    (hd.minorVersion = 0 ∨ hd.minorVersion = 1 ∨ hd.minorVersion = 2) ∧
    hd.indexMajorVersion = 7 ∧ hd.indexMinorVersion ≤ 2 := by
  unfold headerChecksOk at h
  simp only [Bool.and_eq_true, beq_iff_eq, Bool.or_eq_true, decide_eq_true_eq] at h
  tauto

/-- Entries returned by the reader have a non-CLST type below 2^32. -/
theorem getPackage?_entries_type_lt (f : List Nat) (m : Mode) (q : Package)
    (hq : getPackage? f m = some q) :
    ∀ e ∈ q.entries, e.type ≠ CLST_TYPE ∧ e.type < UMOD := by
  obtain ⟨entries0, clstContent, hhd, h96, hck, hholes, hsig, hpi, hces, hents, _⟩ :=
    getPackage?_inv f m q hq
  have h0 : ∀ e ∈ entries0, e.type ≠ CLST_TYPE ∧ e.type < UMOD := fun e he =>
    ⟨(parseIndex_entries f (getFileSize f) _ _ _ _ _ _ hpi e he).2.2.2.1,
     (parseIndex_entries f (getFileSize f) _ _ _ _ _ _ hpi e he).2.2.2.2.1⟩
  have hbase : ∀ e ∈ (if 0 < clstContent.length then
      markCompressed
        (parseClstRecords (q.header.indexMinorVersion = 2) clstContent) entries0
     else entries0), e.type ≠ CLST_TYPE ∧ e.type < UMOD := by
    by_cases hcl : 0 < clstContent.length
    · rw [if_pos hcl]
      exact markCompressed_forall _ (fun e u h => h) (fun e h => h) _ _ h0
    · rw [if_neg hcl]
      exact h0
  rw [hents]
  by_cases hm : m = RECOMPRESS
  · rw [if_pos hm]
    exact markRepeated_forall _ (fun e h => h) _ hbase
  · rw [if_neg hm]
    exact hbase

/-- Sufficient conditions for the header checks to pass. -/
theorem headerChecksOk_intro (fileSize magic : Nat) (hd : Header)
    (h0 : magic = DBPF_MAGIC)
    (h1 : hd.majorVersion = 1)
    (h2 : hd.minorVersion = 0 ∨ hd.minorVersion = 1 ∨ hd.minorVersion = 2)
    (h3 : hd.indexMajorVersion = 7)
    (h4 : hd.indexMinorVersion ≤ 2)
    (h5 : hd.indexLocation ≤ fileSize)
    (h6 : (hd.indexLocation + hd.indexSize) % UMOD ≤ fileSize)
    (h7 : (if hd.indexMinorVersion = 2 then
        hd.indexEntryCount * 4 % UMOD * 6 % UMOD
       else hd.indexEntryCount * 4 % UMOD * 5 % UMOD) ≤ hd.indexSize)
    (h8 : hd.holeIndexLocation ≤ fileSize)
    (h9 : (hd.holeIndexLocation + hd.holeIndexSize) % UMOD ≤ fileSize)
    (h10 : hd.holeIndexEntryCount * 8 % UMOD = hd.holeIndexSize) :
    headerChecksOk fileSize magic hd = true := by
  unfold headerChecksOk
  simp only [Bool.and_eq_true, Bool.or_eq_true, beq_iff_eq, decide_eq_true_eq,
    Bool.not_eq_true', Bool.or_eq_false_iff, decide_eq_false_iff_not, Nat.not_lt]
  refine ⟨⟨⟨⟨⟨⟨⟨⟨h0, h1⟩, ?_⟩, h3⟩, h4⟩, h5, h6⟩, h7⟩, h8, h9⟩, h10⟩
  tauto

/-- Constructor lemma for successful parses: once every stage of the reader
is known to succeed, the returned package is the assembled record. -/
theorem getPackage?_eq_some (file : List Nat) (mode : Mode) (sigFlag : Bool)
    (entries0 : List Entry) (clstContent : List Nat)
    (h96 : ¬ getFileSize file < 96)
    (hck : headerChecksOk (getFileSize file) (getInt (readFile file 0 96) 0)
      (parseHeader (readFile file 0 96)) = true)
    (hsig : checkSignature file (getFileSize file) (parseHeader (readFile file 0 96))
      (parseHoles
        (readFile file (parseHeader (readFile file 0 96)).holeIndexLocation
          (parseHeader (readFile file 0 96)).holeIndexSize)
        (parseHeader (readFile file 0 96)).holeIndexEntryCount) = some sigFlag)
    (hpi : parseIndex file (getFileSize file)
      ((parseHeader (readFile file 0 96)).indexMinorVersion = 2)
      (readFile file (parseHeader (readFile file 0 96)).indexLocation
        (parseHeader (readFile file 0 96)).indexSize)
      (parseHeader (readFile file 0 96)).indexEntryCount [] =
        some (entries0, clstContent)) :
    getPackage? file mode =
      some { unpacked := true
             signature_in_package := sigFlag
             header := parseHeader (readFile file 0 96)
             entries :=
               (if mode = RECOMPRESS then
                 markRepeated
                   (if 0 < clstContent.length then
                     markCompressed
                       (parseClstRecords
                         ((parseHeader (readFile file 0 96)).indexMinorVersion = 2)
                         clstContent)
                       entries0
                    else entries0)
                else
                 (if 0 < clstContent.length then
                   markCompressed
                     (parseClstRecords
                       ((parseHeader (readFile file 0 96)).indexMinorVersion = 2)
                       clstContent)
                     entries0
                  else entries0))
             holes := parseHoles
               (readFile file (parseHeader (readFile file 0 96)).holeIndexLocation
                 (parseHeader (readFile file 0 96)).holeIndexSize)
               (parseHeader (readFile file 0 96)).holeIndexEntryCount
             compressedEntries :=
               (if 0 < clstContent.length then
                 parseClstRecords
                   ((parseHeader (readFile file 0 96)).indexMinorVersion = 2)
                   clstContent
                else []) } := by
  unfold getPackage?
  rw [if_neg h96, if_neg (by simp [hck]), hsig, hpi]

/-- Re-parsing a file of the shape the writer produces in Decompress mode
(patched header, content, index built from CLST-free uncompressed entries, no
holes) succeeds and returns only uncompressed entries. -/
theorem decompWritten_parse (hd : Header) (ES : List Entry) (FL BI P F : List Nat)
    (m2 : Mode)
    (hBI : BI = buildIndex (hd.indexMinorVersion = 2) ES)
    (hP : P = encodeU32 ES.length ++ encodeU32 FL.length ++ encodeU32 BI.length ++
      List.replicate 12 0)
    (hFdef : F = writeAt (FL ++ BI) 36 P)
    (hFL : ∃ T, FL = putHeaderBytes hd ++ T)
    (hmaj : hd.majorVersion = 1)
    (hmin : hd.minorVersion = 0 ∨ hd.minorVersion = 1 ∨ hd.minorVersion = 2)
    (hidxmaj : hd.indexMajorVersion = 7)
    (hidxmin : hd.indexMinorVersion ≤ 2)
    (htype : ∀ e ∈ ES, e.type ≠ CLST_TYPE ∧ e.type < UMOD)
    (hbound : ∀ e ∈ ES, e.location + e.size ≤ FL.length)
    (hsz : FL.length + BI.length < UMOD) :
    ∃ q, getPackage? F m2 = some q ∧ ∀ e ∈ q.entries, e.compressed = false := by
  obtain ⟨T, hT⟩ := hFL
  have hPlen : P.length = 24 := by rw [hP]; simp [encodeU32]
  have hFLlen : 96 ≤ FL.length := by rw [hT]; simp [putHeaderBytes_length]
  have hWlen : (writeAt FL 36 P).length = FL.length :=
    writeAt_length FL 36 P (by omega)
  have hsplit1 : F = writeAt FL 36 P ++ BI := by
    rw [hFdef]; exact writeAt_append_left FL BI 36 P (by omega)
  have hLenF : F.length = FL.length + BI.length := by
    rw [hsplit1]; simp [hWlen]
  have hflat : P = encodeU32 ES.length ++ encodeU32 FL.length ++
      encodeU32 BI.length ++ encodeU32 0 ++ encodeU32 0 ++ encodeU32 0 := by
    rw [hP, replicate12_encode]
    simp [List.append_assoc]
  have hsplit2 : writeAt FL 36 P = writeAt (putHeaderBytes hd) 36 P ++ T := by
    rw [hT]
    exact writeAt_append_left _ _ 36 P (by rw [putHeaderBytes_length]; omega)
  have hH96 : (writeAt (putHeaderBytes hd) 36 P).length = 96 := by
    rw [writeAt_length (putHeaderBytes hd) 36 P
      (by rw [hPlen, putHeaderBytes_length]; omega), putHeaderBytes_length]
  have hread96 : readFile F 0 96 = writeAt (putHeaderBytes hd) 36 P := by
    rw [hsplit1, hsplit2, List.append_assoc]
    exact readFile_exact _ _ _ hH96
  have hHD : parseHeader (readFile F 0 96) =
      { majorVersion := hd.majorVersion % UMOD,
        minorVersion := hd.minorVersion % UMOD,
        majorUserVersion := hd.majorUserVersion % UMOD,
        minorUserVersion := hd.minorUserVersion % UMOD,
        flags := hd.flags % UMOD,
        createdDate := hd.createdDate % UMOD,
        modifiedDate := hd.modifiedDate % UMOD,
        indexMajorVersion := hd.indexMajorVersion % UMOD,
        indexEntryCount := ES.length % UMOD,
        indexLocation := FL.length % UMOD,
        indexSize := BI.length % UMOD,
        holeIndexEntryCount := 0 % UMOD,
        holeIndexLocation := 0 % UMOD,
        holeIndexSize := 0 % UMOD,
        indexMinorVersion := hd.indexMinorVersion % UMOD,
        remainder := hd.remainder.take 32 ++
          List.replicate (32 - hd.remainder.length) 0 } := by
    rw [hread96, hflat]
    exact parseHeader_patched hd ES.length FL.length BI.length 0 0 0
  have hESle : ES.length ≤ BI.length := by
    have hb := buildIndex_length (hd.indexMinorVersion = 2) ES
    rw [← hBI] at hb
    by_cases hv : hd.indexMinorVersion = 2 <;> simp [hv] at hb <;> omega
  have hUES : ES.length % UMOD = ES.length := Nat.mod_eq_of_lt (by omega)
  have hUFL : FL.length % UMOD = FL.length := Nat.mod_eq_of_lt (by omega)
  have hUBI : BI.length % UMOD = BI.length := Nat.mod_eq_of_lt (by omega)
  have hpMaj : (parseHeader (readFile F 0 96)).majorVersion = 1 := by
    rw [hHD, hmaj]
    exact Nat.mod_eq_of_lt (by decide)
  have hpMin : (parseHeader (readFile F 0 96)).minorVersion = hd.minorVersion := by
    rw [hHD]
    exact Nat.mod_eq_of_lt (by rcases hmin with h | h | h <;> rw [h] <;> decide)
  have hpIMaj : (parseHeader (readFile F 0 96)).indexMajorVersion = 7 := by
    rw [hHD, hidxmaj]
    exact Nat.mod_eq_of_lt (by decide)
  have hpIMin : (parseHeader (readFile F 0 96)).indexMinorVersion =
      hd.indexMinorVersion := by
    rw [hHD]
    exact Nat.mod_eq_of_lt (by simp only [UMOD]; omega)
  have hpIEC : (parseHeader (readFile F 0 96)).indexEntryCount = ES.length := by
    rw [hHD]; exact hUES
  have hpIL : (parseHeader (readFile F 0 96)).indexLocation = FL.length := by
    rw [hHD]; exact hUFL
  have hpIS : (parseHeader (readFile F 0 96)).indexSize = BI.length := by
    rw [hHD]; exact hUBI
  have hpHEC : (parseHeader (readFile F 0 96)).holeIndexEntryCount = 0 := by
    rw [hHD]; exact Nat.zero_mod UMOD
  have hpHIL : (parseHeader (readFile F 0 96)).holeIndexLocation = 0 := by
    rw [hHD]; exact Nat.zero_mod UMOD
  have hpHIS : (parseHeader (readFile F 0 96)).holeIndexSize = 0 := by
    rw [hHD]; exact Nat.zero_mod UMOD
  have hfsF : getFileSize F = F.length := by
    unfold getFileSize
    exact Nat.mod_eq_of_lt (by omega)
  have h96F : ¬ getFileSize F < 96 := by rw [hfsF, hLenF]; omega
  have hmagic : getInt (readFile F 0 96) 0 = DBPF_MAGIC := by
    rw [hread96, hflat]
    exact getInt_patched_magic hd _ _ _ _ _ _
  have hckT : headerChecksOk (getFileSize F) (getInt (readFile F 0 96) 0)
      (parseHeader (readFile F 0 96)) = true := by
    apply headerChecksOk_intro
    · exact hmagic
    · exact hpMaj
    · rw [hpMin]; exact hmin
    · exact hpIMaj
    · rw [hpIMin]; exact hidxmin
    · rw [hpIL, hfsF, hLenF]; omega
    · rw [hpIL, hpIS, hfsF, hLenF,
        Nat.mod_eq_of_lt (show FL.length + BI.length < UMOD by omega)]
    · rw [hpIMin, hpIEC, hpIS]
      have hb := buildIndex_length (hd.indexMinorVersion = 2) ES
      rw [← hBI] at hb
      by_cases hv : hd.indexMinorVersion = 2
      · rw [if_pos hv]
        simp [hv] at hb
        simp only [UMOD] at hsz ⊢
        omega
      · rw [if_neg hv]
        simp [hv] at hb
        simp only [UMOD] at hsz ⊢
        omega
    · rw [hpHIL]; omega
    · rw [hpHIL, hpHIS]; simp
    · rw [hpHEC, hpHIS]
      simp
  have hholesF : parseHoles
      (readFile F (parseHeader (readFile F 0 96)).holeIndexLocation
        (parseHeader (readFile F 0 96)).holeIndexSize)
      (parseHeader (readFile F 0 96)).holeIndexEntryCount = [] := by
    rw [hpHEC]
    rfl
  have hsigF : checkSignature F (getFileSize F) (parseHeader (readFile F 0 96))
      (parseHoles
        (readFile F (parseHeader (readFile F 0 96)).holeIndexLocation
          (parseHeader (readFile F 0 96)).holeIndexSize)
        (parseHeader (readFile F 0 96)).holeIndexEntryCount) = some false := by
    unfold checkSignature
    rw [if_neg (by intro hcon; rw [hpHEC] at hcon; exact absurd hcon.1 (by decide))]
  have hloBI : readFile F (parseHeader (readFile F 0 96)).indexLocation
      (parseHeader (readFile F 0 96)).indexSize = BI := by
    rw [hpIL, hpIS, hsplit1,
      readFile_append_right _ _ _ _ (le_of_eq hWlen), hWlen, Nat.sub_self]
    exact readFile_self BI
  have hfsU : getFileSize F < UMOD := by rw [hfsF]; omega
  obtain ⟨es2, hpi2⟩ := parseIndex_buildIndex_noclst F (getFileSize F)
    (hd.indexMinorVersion = 2) hfsU ES []
    (fun e he => by rw [hfsF, hLenF]; have := hbound e he; omega)
    (fun e he => by
      rw [Nat.mod_eq_of_lt (htype e he).2]
      exact (htype e he).1)
  have hpiF : parseIndex F (getFileSize F)
      ((parseHeader (readFile F 0 96)).indexMinorVersion = 2)
      (readFile F (parseHeader (readFile F 0 96)).indexLocation
        (parseHeader (readFile F 0 96)).indexSize)
      (parseHeader (readFile F 0 96)).indexEntryCount [] = some (es2, []) := by
    rw [hloBI, hpIMin, hpIEC, hBI]
    exact hpi2
  have hq := getPackage?_eq_some F m2 false es2 [] h96F hckT hsigF hpiF
  have hfresh : ∀ x ∈ es2, x.compressed = false := fun x hx =>
    (parseIndex_entries F (getFileSize F) _ _ _ _ _ _ hpi2 x hx).1
  refine ⟨_, hq, fun e he => ?_⟩
  simp only [List.length_nil, lt_self_iff_false, if_false] at he
  by_cases hm2 : m2 = RECOMPRESS
  · rw [if_pos hm2] at he
    exact markRepeated_forall (fun x => x.compressed = false) (fun x h => h)
      es2 hfresh e he
  · rw [if_neg hm2] at he
    exact hfresh e he

/-- C4 (amended): rewriting a successfully parsed archive in Decompress mode
and re-parsing the output yields zero compressed entries, provided every
compressed entry payload actually decompresses; when the codec fails on an
entry the source keeps the compressed bytes, so the proviso is necessary (see
the counterexample). -/
theorem c4_decompress_then_parse (qc : QfsCompress) (qd : QfsDecompress)
    (file : List Nat) (m m2 : Mode) (p : Package)
    (hp : getPackage? file m = some p)
    (hdec : ∀ e ∈ p.entries, e.compressed = true →
      (qd (readFile file e.location e.size)
        (getUncompressedSize (readFile file e.location e.size))).isSome = true)
    (hsize : (putPackage qc qd file p DECOMPRESS).1.length < UMOD) :
    ∃ q, getPackage? (putPackage qc qd file p DECOMPRESS).1 m2 = some q ∧
      ∀ e ∈ q.entries, e.compressed = false := by
  obtain ⟨entries0, clstC0, hhd0, h960, hck0, hholes0, hsig0, hpi0, hces0, hents0, _⟩ :=
    getPackage?_inv file m p hp
  obtain ⟨hmaj, hmin, hidxmaj, hidxmin⟩ := headerChecksOk_fields _ _ _ hck0
  have htypes := getPackage?_entries_type_lt file m p hp
  have hw := writeEntries_decompress qd qc file p.entries (putHeaderBytes p.header)
    hdec
  have hnocomp : ¬ 0 < (buildClst (p.header.indexMinorVersion = 2)
      (writeEntries qc qd file DECOMPRESS p.entries
        (putHeaderBytes p.header)).1).length := by
    intro hpos
    have hany := (buildClst_pos_iff _ _).mp hpos
    rw [List.any_eq_true] at hany
    obtain ⟨e, he, hce⟩ := hany
    have := (hw e he).1
    rw [this] at hce
    exact absurd hce (by simp)
  have hEF : entriesFileOut qc qd file p DECOMPRESS =
      ((writeEntries qc qd file DECOMPRESS p.entries (putHeaderBytes p.header)).1,
       (writeEntries qc qd file DECOMPRESS p.entries (putHeaderBytes p.header)).2) := by
    unfold entriesFileOut
    rw [if_neg hnocomp]
  have hE1 : (entriesFileOut qc qd file p DECOMPRESS).1 =
      (writeEntries qc qd file DECOMPRESS p.entries (putHeaderBytes p.header)).1 := by
    rw [hEF]
  have hE2 : (entriesFileOut qc qd file p DECOMPRESS).2 =
      (writeEntries qc qd file DECOMPRESS p.entries (putHeaderBytes p.header)).2 := by
    rw [hEF]
  have hIFO : indexedFileOut qc qd file p DECOMPRESS =
      (writeEntries qc qd file DECOMPRESS p.entries (putHeaderBytes p.header)).2 ++
        buildIndex (p.header.indexMinorVersion = 2)
          (writeEntries qc qd file DECOMPRESS p.entries (putHeaderBytes p.header)).1 := by
    unfold indexedFileOut
    rw [hE1, hE2]
  obtain ⟨tail, htail⟩ := writeEntries_ext qc qd file DECOMPRESS p.entries
    (putHeaderBytes p.header)
  have hF : (putPackage qc qd file p DECOMPRESS).1 =
      writeAt (indexedFileOut qc qd file p DECOMPRESS) 36
        (encodeU32 (entriesFileOut qc qd file p DECOMPRESS).1.length ++
          encodeU32 (entriesFileOut qc qd file p DECOMPRESS).2.length ++
          encodeU32 ((indexedFileOut qc qd file p DECOMPRESS).length -
            (entriesFileOut qc qd file p DECOMPRESS).2.length) ++
          List.replicate 12 0) := by
    rw [putPackage_decompress_eq]
  have hpatchlen : (encodeU32 (entriesFileOut qc qd file p DECOMPRESS).1.length ++
      encodeU32 (entriesFileOut qc qd file p DECOMPRESS).2.length ++
      encodeU32 ((indexedFileOut qc qd file p DECOMPRESS).length -
        (entriesFileOut qc qd file p DECOMPRESS).2.length) ++
      List.replicate 12 0).length = 24 := by
    simp [encodeU32]
  have hifolen : 96 ≤ (indexedFileOut qc qd file p DECOMPRESS).length := by
    rw [hIFO, htail]
    simp [putHeaderBytes_length]
  have hLen : (putPackage qc qd file p DECOMPRESS).1.length =
      (indexedFileOut qc qd file p DECOMPRESS).length := by
    rw [hF]
    exact writeAt_length _ _ _ (by rw [hpatchlen]; omega)
  have hIFOlen : (indexedFileOut qc qd file p DECOMPRESS).length =
      (writeEntries qc qd file DECOMPRESS p.entries (putHeaderBytes p.header)).2.length +
      (buildIndex (p.header.indexMinorVersion = 2)
        (writeEntries qc qd file DECOMPRESS p.entries
          (putHeaderBytes p.header)).1).length := by
    rw [hIFO]
    simp
  have hszW : (writeEntries qc qd file DECOMPRESS p.entries
      (putHeaderBytes p.header)).2.length +
      (buildIndex (p.header.indexMinorVersion = 2)
        (writeEntries qc qd file DECOMPRESS p.entries
          (putHeaderBytes p.header)).1).length < UMOD := by
    omega
  rw [hF, hE1, hE2, hIFO]
  simp only [List.length_append, Nat.add_sub_cancel_left]
  exact decompWritten_parse p.header
    (writeEntries qc qd file DECOMPRESS p.entries (putHeaderBytes p.header)).1
    (writeEntries qc qd file DECOMPRESS p.entries (putHeaderBytes p.header)).2
    (buildIndex (p.header.indexMinorVersion = 2)
      (writeEntries qc qd file DECOMPRESS p.entries (putHeaderBytes p.header)).1)
    _ _ m2 rfl rfl rfl ⟨tail, htail⟩ hmaj hmin hidxmaj hidxmin
    (fun e2 he2 => by
      obtain ⟨_, e, he, hty⟩ := hw e2 he2
      rw [hty]
      exact htypes e he)
    (writeEntries_bounds qc qd file DECOMPRESS p.entries (putHeaderBytes p.header))
    hszW

/-- An archive with one compressed entry whose 14-byte payload (produced by
the modelled compressor from 40 zero bytes) decompresses successfully. -/
def c4GoodFile : List Nat :=
  mkTestHeader 2 126 40 0 0 0 ++
  [14, 0, 0, 0, 0x10, 0xFB, 0, 0, 40, 163, 64, 0, 0, 252] ++
  (encodeU32 1 ++ encodeU32 2 ++ encodeU32 3 ++ encodeU32 40) ++
  (encodeU32 1 ++ encodeU32 2 ++ encodeU32 3 ++ encodeU32 96 ++ encodeU32 14) ++
  (encodeU32 CLST_TYPE ++ encodeU32 0 ++ encodeU32 0 ++ encodeU32 110 ++ encodeU32 16)

/-- The parse of `c4GoodFile` in DECOMPRESS mode. -/
def c4GoodPackage : Package where
  unpacked := true
  signature_in_package := false
  header :=
    { majorVersion := 1, minorVersion := 1, majorUserVersion := 0,
      minorUserVersion := 0, flags := 0, createdDate := 0, modifiedDate := 0,
      indexMajorVersion := 7, indexEntryCount := 2, indexLocation := 126,
      indexSize := 40, holeIndexEntryCount := 0, holeIndexLocation := 0,
      holeIndexSize := 0, indexMinorVersion := 0,
      remainder := List.replicate 32 0 }
  entries := [{ type := 1, group := 2, inst := 3, resource := 0, location := 96,
                size := 14, uncompressedSize := 40, compressed := true,
                repeated := false }]
  holes := []
  compressedEntries := [{ type := 1, group := 2, inst := 3, resource := 0,
                          uncompressedSize := 40 }]

set_option maxRecDepth 1000000 in
/-- Witness for the amended C4 at a concrete archive whose compressed entry
decompresses: the Decompress rewrite re-parses with no compressed entry. -/
theorem c4_decompress_then_parse_witness :
    (getPackage? c4GoodFile DECOMPRESS = some c4GoodPackage ∧
     (∀ e ∈ c4GoodPackage.entries, e.compressed = true →
       (qfsDecompress (readFile c4GoodFile e.location e.size)
         (getUncompressedSize (readFile c4GoodFile e.location e.size))).isSome =
           true) ∧
     (putPackage qfsCompress qfsDecompress c4GoodFile c4GoodPackage
       DECOMPRESS).1.length < UMOD) ∧
    ∃ q, getPackage? (putPackage qfsCompress qfsDecompress c4GoodFile
        c4GoodPackage DECOMPRESS).1 DECOMPRESS = some q ∧
      ∀ e ∈ q.entries, e.compressed = false :=
  ⟨⟨by decide, by decide, by decide⟩,
   c4_decompress_then_parse qfsCompress qfsDecompress c4GoodFile DECOMPRESS
     DECOMPRESS c4GoodPackage (by decide) (by decide) (by decide)⟩

theorem parseHoles_one (buf : List Nat) :
    parseHoles buf 1 = [⟨getInt buf 0, getInt buf 4⟩] := rfl

theorem getInt_encodeU32_second (a b : Nat) :
    getInt (encodeU32 a ++ encodeU32 b) 4 = b % UMOD := by
  have h : getInt (encodeU32 a ++ encodeU32 b) 4 =
      b % 256 % 256 + 256 * (b / 256 % 256 % 256) + 65536 * (b / 65536 % 256 % 256) +
      16777216 * (b / 16777216 % 256 % 256) := rfl
  rw [h]; unfold UMOD; omega

/-- Evaluation of the signature check on a single hole of size 8 that lies in
bounds. -/
theorem checkSignature_eval (file : List Nat) (fs : Nat) (hd : Header)
    (loc : Nat) (h1 : hd.holeIndexEntryCount = 1)
    (hle : ¬(loc > fs ∨ (loc + 8) % UMOD > fs)) :
    checkSignature file fs hd [⟨loc, 8⟩] =
      some (getInt (readFile file loc 8) 0 == SIGNATURE &&
            getInt (readFile file loc 8) 4 == fs) := by
  unfold checkSignature
  simp only [List.headD_cons]
  rw [if_pos ⟨h1, trivial⟩, if_neg hle]

/-- Re-parsing a file of the shape the writer produces in Recompress mode
(patched header, content, index, hole index and signature hole) succeeds; the
parsed header records the single 8-byte hole, the signature flag is set, and a
second Recompress pass skips. -/
theorem recompWritten_parse (hd : Header) (ES : List Entry) (FL BI P F : List Nat)
    (hBI : BI = buildIndex (hd.indexMinorVersion = 2) ES)
    (hP : P = encodeU32 ES.length ++ (encodeU32 FL.length ++ (encodeU32 BI.length ++
      (encodeU32 1 ++ (encodeU32 (FL.length + BI.length) ++ encodeU32 8)))))
    (hFdef : F = writeAt (FL ++ (BI ++ (encodeU32 (FL.length + BI.length + 8) ++
      (encodeU32 8 ++ (encodeU32 SIGNATURE ++
        encodeU32 (FL.length + BI.length + 16)))))) 36 P)
    (hFL : ∃ T, FL = putHeaderBytes hd ++ T)
    (hmaj : hd.majorVersion = 1)
    (hmin : hd.minorVersion = 0 ∨ hd.minorVersion = 1 ∨ hd.minorVersion = 2)
    (hidxmaj : hd.indexMajorVersion = 7)
    (hidxmin : hd.indexMinorVersion ≤ 2)
    (hbound : ∀ e ∈ ES, e.location + e.size ≤ FL.length)
    (hsz : FL.length + BI.length + 16 < UMOD) :
    readFile F (F.length - 16) 8 = encodeU32 (F.length - 8) ++ encodeU32 8 ∧
    readFile F (F.length - 8) 8 = encodeU32 SIGNATURE ++ encodeU32 F.length ∧
    ∃ q, getPackage? F RECOMPRESS = some q ∧
      q.header.holeIndexEntryCount = 1 ∧ q.header.holeIndexSize = 8 ∧
      q.signature_in_package = true ∧ effectiveMode q RECOMPRESS = SKIP := by
  obtain ⟨T, hT⟩ := hFL
  have hPlen : P.length = 24 := by rw [hP]; simp [encodeU32]
  have hFLlen : 96 ≤ FL.length := by rw [hT]; simp [putHeaderBytes_length]
  have hWlen : (writeAt FL 36 P).length = FL.length :=
    writeAt_length FL 36 P (by omega)
  have hsplit1 : F = writeAt FL 36 P ++
      (BI ++ (encodeU32 (FL.length + BI.length + 8) ++
        (encodeU32 8 ++ (encodeU32 SIGNATURE ++
          encodeU32 (FL.length + BI.length + 16))))) := by
    rw [hFdef]
    exact writeAt_append_left _ _ 36 P (by omega)
  have hLenF : F.length = FL.length + BI.length + 16 := by
    rw [hsplit1]
    simp only [List.length_append, hWlen, encodeU32_length]
    omega
  have hflat : P = encodeU32 ES.length ++ encodeU32 FL.length ++
      encodeU32 BI.length ++ encodeU32 1 ++
      encodeU32 (FL.length + BI.length) ++ encodeU32 8 := by
    rw [hP]
    simp [List.append_assoc]
  have hsplit2 : writeAt FL 36 P = writeAt (putHeaderBytes hd) 36 P ++ T := by
    rw [hT]
    exact writeAt_append_left _ _ 36 P (by rw [putHeaderBytes_length]; omega)
  have hH96 : (writeAt (putHeaderBytes hd) 36 P).length = 96 := by
    rw [writeAt_length (putHeaderBytes hd) 36 P
      (by rw [hPlen, putHeaderBytes_length]; omega), putHeaderBytes_length]
  have hread96 : readFile F 0 96 = writeAt (putHeaderBytes hd) 36 P := by
    rw [hsplit1, hsplit2, List.append_assoc]
    exact readFile_exact _ _ _ hH96
  have hHD : parseHeader (readFile F 0 96) =
      { majorVersion := hd.majorVersion % UMOD,
        minorVersion := hd.minorVersion % UMOD,
        majorUserVersion := hd.majorUserVersion % UMOD,
        minorUserVersion := hd.minorUserVersion % UMOD,
        flags := hd.flags % UMOD,
        createdDate := hd.createdDate % UMOD,
        modifiedDate := hd.modifiedDate % UMOD,
        indexMajorVersion := hd.indexMajorVersion % UMOD,
        indexEntryCount := ES.length % UMOD,
        indexLocation := FL.length % UMOD,
        indexSize := BI.length % UMOD,
        holeIndexEntryCount := 1 % UMOD,
        holeIndexLocation := (FL.length + BI.length) % UMOD,
        holeIndexSize := 8 % UMOD,
        indexMinorVersion := hd.indexMinorVersion % UMOD,
        remainder := hd.remainder.take 32 ++
          List.replicate (32 - hd.remainder.length) 0 } := by
    rw [hread96, hflat]
    exact parseHeader_patched hd ES.length FL.length BI.length 1
      (FL.length + BI.length) 8
  have hESle : ES.length ≤ BI.length := by
    have hb := buildIndex_length (hd.indexMinorVersion = 2) ES
    rw [← hBI] at hb
    by_cases hv : hd.indexMinorVersion = 2 <;> simp [hv] at hb <;> omega
  have hUES : ES.length % UMOD = ES.length := Nat.mod_eq_of_lt (by omega)
  have hUFL : FL.length % UMOD = FL.length := Nat.mod_eq_of_lt (by omega)
  have hUBI : BI.length % UMOD = BI.length := Nat.mod_eq_of_lt (by omega)
  have hpMaj : (parseHeader (readFile F 0 96)).majorVersion = 1 := by
    rw [hHD, hmaj]
    exact Nat.mod_eq_of_lt (by decide)
  have hpMin : (parseHeader (readFile F 0 96)).minorVersion = hd.minorVersion := by
    rw [hHD]
    exact Nat.mod_eq_of_lt (by rcases hmin with h | h | h <;> rw [h] <;> decide)
  have hpIMaj : (parseHeader (readFile F 0 96)).indexMajorVersion = 7 := by
    rw [hHD, hidxmaj]
    exact Nat.mod_eq_of_lt (by decide)
  have hpIMin : (parseHeader (readFile F 0 96)).indexMinorVersion =
      hd.indexMinorVersion := by
    rw [hHD]
    exact Nat.mod_eq_of_lt (by simp only [UMOD]; omega)
  have hpIEC : (parseHeader (readFile F 0 96)).indexEntryCount = ES.length := by
    rw [hHD]; exact hUES
  have hpIL : (parseHeader (readFile F 0 96)).indexLocation = FL.length := by
    rw [hHD]; exact hUFL
  have hpIS : (parseHeader (readFile F 0 96)).indexSize = BI.length := by
    rw [hHD]; exact hUBI
  have hpHEC : (parseHeader (readFile F 0 96)).holeIndexEntryCount = 1 := by
    rw [hHD]; exact Nat.mod_eq_of_lt (by decide)
  have hpHIL : (parseHeader (readFile F 0 96)).holeIndexLocation =
      FL.length + BI.length := by
    rw [hHD]; exact Nat.mod_eq_of_lt (by omega)
  have hpHIS : (parseHeader (readFile F 0 96)).holeIndexSize = 8 := by
    rw [hHD]; exact Nat.mod_eq_of_lt (by decide)
  have hfsF : getFileSize F = F.length := by
    unfold getFileSize
    exact Nat.mod_eq_of_lt (by omega)
  have h96F : ¬ getFileSize F < 96 := by rw [hfsF, hLenF]; omega
  have hmagic : getInt (readFile F 0 96) 0 = DBPF_MAGIC := by
    rw [hread96, hflat]
    exact getInt_patched_magic hd _ _ _ _ _ _
  have hckT : headerChecksOk (getFileSize F) (getInt (readFile F 0 96) 0)
      (parseHeader (readFile F 0 96)) = true := by
    apply headerChecksOk_intro
    · exact hmagic
    · exact hpMaj
    · rw [hpMin]; exact hmin
    · exact hpIMaj
    · rw [hpIMin]; exact hidxmin
    · rw [hpIL, hfsF, hLenF]; omega
    · rw [hpIL, hpIS, hfsF, hLenF,
        Nat.mod_eq_of_lt (show FL.length + BI.length < UMOD by omega)]
      omega
    · rw [hpIMin, hpIEC, hpIS]
      have hb := buildIndex_length (hd.indexMinorVersion = 2) ES
      rw [← hBI] at hb
      by_cases hv : hd.indexMinorVersion = 2
      · rw [if_pos hv]
        simp [hv] at hb
        simp only [UMOD] at hsz ⊢
        omega
      · rw [if_neg hv]
        simp [hv] at hb
        simp only [UMOD] at hsz ⊢
        omega
    · rw [hpHIL, hfsF, hLenF]; omega
    · rw [hpHIL, hpHIS, hfsF, hLenF,
        Nat.mod_eq_of_lt (show FL.length + BI.length + 8 < UMOD by omega)]
      omega
    · rw [hpHEC, hpHIS]
      decide
  have hsliceA : readFile F (FL.length + BI.length) 8 =
      encodeU32 (FL.length + BI.length + 8) ++ encodeU32 8 := by
    rw [hsplit1,
      readFile_append_right (writeAt FL 36 P) _ (FL.length + BI.length) 8
        (by rw [hWlen]; omega),
      hWlen, Nat.add_sub_cancel_left,
      readFile_append_right BI _ BI.length 8 (le_refl _), Nat.sub_self]
    rw [show encodeU32 (FL.length + BI.length + 8) ++
        (encodeU32 8 ++ (encodeU32 SIGNATURE ++
          encodeU32 (FL.length + BI.length + 16))) =
        (encodeU32 (FL.length + BI.length + 8) ++ encodeU32 8) ++
        (encodeU32 SIGNATURE ++ encodeU32 (FL.length + BI.length + 16)) from by
      simp [List.append_assoc]]
    exact readFile_exact _ _ 8 (by simp [encodeU32])
  have hsliceB : readFile F (FL.length + BI.length + 8) 8 =
      encodeU32 SIGNATURE ++ encodeU32 (FL.length + BI.length + 16) := by
    rw [hsplit1,
      readFile_append_right (writeAt FL 36 P) _ (FL.length + BI.length + 8) 8
        (by rw [hWlen]; omega),
      hWlen, show FL.length + BI.length + 8 - FL.length = BI.length + 8 from by
        omega,
      readFile_append_right BI _ (BI.length + 8) 8 (by omega),
      show BI.length + 8 - BI.length = 8 from by omega]
    rw [show encodeU32 (FL.length + BI.length + 8) ++
        (encodeU32 8 ++ (encodeU32 SIGNATURE ++
          encodeU32 (FL.length + BI.length + 16))) =
        (encodeU32 (FL.length + BI.length + 8) ++ encodeU32 8) ++
        (encodeU32 SIGNATURE ++ encodeU32 (FL.length + BI.length + 16)) from by
      simp [List.append_assoc]]
    rw [readFile_append_right _ _ 8 8 (by simp [encodeU32]),
      show (8:Nat) - (encodeU32 (FL.length + BI.length + 8) ++
        encodeU32 8).length = 0 from by simp [encodeU32]]
    have h := readFile_exact
      (encodeU32 SIGNATURE ++ encodeU32 (FL.length + BI.length + 16)) [] 8
      (by simp [encodeU32])
    simpa using h
  refine ⟨?_, ?_, ?_⟩
  · rw [hLenF,
      show FL.length + BI.length + 16 - 16 = FL.length + BI.length from by omega,
      show FL.length + BI.length + 16 - 8 = FL.length + BI.length + 8 from by omega]
    exact hsliceA
  · rw [hLenF,
      show FL.length + BI.length + 16 - 8 = FL.length + BI.length + 8 from by omega]
    exact hsliceB
  · have hholesF : parseHoles
        (readFile F (parseHeader (readFile F 0 96)).holeIndexLocation
          (parseHeader (readFile F 0 96)).holeIndexSize)
        (parseHeader (readFile F 0 96)).holeIndexEntryCount =
        [⟨FL.length + BI.length + 8, 8⟩] := by
      rw [hpHEC, hpHIL, hpHIS, hsliceA, parseHoles_one, getInt_encodeU32,
        getInt_encodeU32_second,
        Nat.mod_eq_of_lt (show FL.length + BI.length + 8 < UMOD by omega),
        Nat.mod_eq_of_lt (show (8:Nat) < UMOD by decide)]
    have hsigT : checkSignature F (getFileSize F) (parseHeader (readFile F 0 96))
        (parseHoles
          (readFile F (parseHeader (readFile F 0 96)).holeIndexLocation
            (parseHeader (readFile F 0 96)).holeIndexSize)
          (parseHeader (readFile F 0 96)).holeIndexEntryCount) = some true := by
      have hble : ¬(FL.length + BI.length + 8 > getFileSize F ∨
          (FL.length + BI.length + 8 + 8) % UMOD > getFileSize F) := by
        intro hcon
        rw [hfsF, hLenF] at hcon
        rcases hcon with hc | hc
        · omega
        · rw [Nat.mod_eq_of_lt
            (show FL.length + BI.length + 8 + 8 < UMOD by omega)] at hc
          omega
      rw [hholesF,
        checkSignature_eval F (getFileSize F) _ (FL.length + BI.length + 8) hpHEC
          hble, hsliceB]
      simp only [getInt_encodeU32, getInt_encodeU32_second, hfsF, hLenF,
        Nat.mod_eq_of_lt (show SIGNATURE < UMOD by decide),
        Nat.mod_eq_of_lt (show FL.length + BI.length + 16 < UMOD by omega),
        beq_self_eq_true, Bool.and_self]
    have hloBI : readFile F (parseHeader (readFile F 0 96)).indexLocation
        (parseHeader (readFile F 0 96)).indexSize = BI := by
      rw [hpIL, hpIS, hsplit1,
        readFile_append_right _ _ _ _ (le_of_eq hWlen), hWlen, Nat.sub_self]
      exact readFile_exact _ _ _ rfl
    have hfsU : getFileSize F < UMOD := by rw [hfsF]; omega
    obtain ⟨es2, c2, hpi2⟩ := parseIndex_buildIndex_some F (getFileSize F)
      (hd.indexMinorVersion = 2) hfsU ES []
      (fun e he => by rw [hfsF, hLenF]; have := hbound e he; omega)
    have hpiF : parseIndex F (getFileSize F)
        ((parseHeader (readFile F 0 96)).indexMinorVersion = 2)
        (readFile F (parseHeader (readFile F 0 96)).indexLocation
          (parseHeader (readFile F 0 96)).indexSize)
        (parseHeader (readFile F 0 96)).indexEntryCount [] = some (es2, c2) := by
      rw [hloBI, hpIMin, hpIEC, hBI]
      exact hpi2
    have hq := getPackage?_eq_some F RECOMPRESS true es2 c2 h96F hckT hsigT hpiF
    refine ⟨_, hq, ?_, ?_, rfl, ?_⟩
    · exact hpHEC
    · exact hpHIS
    · unfold effectiveMode
      rw [if_pos ⟨rfl, rfl⟩]

/-- C3: after `putPackage` runs in Recompress mode, the output ends with the
8-byte hole index (pointing at the hole, size 8) immediately followed by the
8-byte hole holding the BRG5 word and the exact output file size; the patched
header records one hole of size 8; and re-parsing the output in Recompress
mode finds the signature, so the second pass skips (no write). -/
theorem c3_recompress_trailer (qc : QfsCompress) (qd : QfsDecompress)
    (file : List Nat) (m : Mode) (p : Package)
    (hp : getPackage? file m = some p)
    (hsize : (putPackage qc qd file p RECOMPRESS).1.length < UMOD) :
    readFile (putPackage qc qd file p RECOMPRESS).1
        ((putPackage qc qd file p RECOMPRESS).1.length - 16) 8 =
      encodeU32 ((putPackage qc qd file p RECOMPRESS).1.length - 8) ++
        encodeU32 8 ∧
    readFile (putPackage qc qd file p RECOMPRESS).1
        ((putPackage qc qd file p RECOMPRESS).1.length - 8) 8 =
      encodeU32 SIGNATURE ++
        encodeU32 (putPackage qc qd file p RECOMPRESS).1.length ∧
    ∃ q, getPackage? (putPackage qc qd file p RECOMPRESS).1 RECOMPRESS = some q ∧
      q.header.holeIndexEntryCount = 1 ∧ q.header.holeIndexSize = 8 ∧
      q.signature_in_package = true ∧ effectiveMode q RECOMPRESS = SKIP := by
  obtain ⟨entries0, clstC0, hhd0, h960, hck0, hholes0, hsig0, hpi0, hces0, hents0, _⟩ :=
    getPackage?_inv file m p hp
  obtain ⟨hmaj, hmin, hidxmaj, hidxmin⟩ := headerChecksOk_fields _ _ _ hck0
  have hIFO : indexedFileOut qc qd file p RECOMPRESS =
      (entriesFileOut qc qd file p RECOMPRESS).2 ++
        buildIndex (p.header.indexMinorVersion = 2)
          (entriesFileOut qc qd file p RECOMPRESS).1 := rfl
  have hF : (putPackage qc qd file p RECOMPRESS).1 =
      writeAt
        (indexedFileOut qc qd file p RECOMPRESS ++
          encodeU32 ((indexedFileOut qc qd file p RECOMPRESS).length + 8) ++
          encodeU32 8 ++ encodeU32 SIGNATURE ++
          encodeU32 ((indexedFileOut qc qd file p RECOMPRESS).length + 16))
        36
        (encodeU32 (entriesFileOut qc qd file p RECOMPRESS).1.length ++
          encodeU32 (entriesFileOut qc qd file p RECOMPRESS).2.length ++
          encodeU32 ((indexedFileOut qc qd file p RECOMPRESS).length -
            (entriesFileOut qc qd file p RECOMPRESS).2.length) ++
          (encodeU32 1 ++
            encodeU32 (indexedFileOut qc qd file p RECOMPRESS).length ++
            encodeU32 8)) := by
    rw [putPackage_recompress_eq]
  have hEF96 : 96 ≤ (entriesFileOut qc qd file p RECOMPRESS).2.length := by
    obtain ⟨T, hT⟩ := entriesFileOut_ext qc qd file p RECOMPRESS
    rw [hT]
    simp [putHeaderBytes_length]
  have hLenOut : (putPackage qc qd file p RECOMPRESS).1.length =
      (entriesFileOut qc qd file p RECOMPRESS).2.length +
      (buildIndex (p.header.indexMinorVersion = 2)
        (entriesFileOut qc qd file p RECOMPRESS).1).length + 16 := by
    rw [hF, writeAt_length _ _ _ (by
      rw [hIFO]
      simp only [List.length_append, encodeU32_length]
      omega)]
    rw [hIFO]
    simp only [List.length_append, encodeU32_length]
  have hsz : (entriesFileOut qc qd file p RECOMPRESS).2.length +
      (buildIndex (p.header.indexMinorVersion = 2)
        (entriesFileOut qc qd file p RECOMPRESS).1).length + 16 < UMOD := by
    omega
  rw [hF, hIFO]
  simp only [List.length_append, Nat.add_sub_cancel_left, List.append_assoc]
  exact recompWritten_parse p.header
    (entriesFileOut qc qd file p RECOMPRESS).1
    (entriesFileOut qc qd file p RECOMPRESS).2
    (buildIndex (p.header.indexMinorVersion = 2)
      (entriesFileOut qc qd file p RECOMPRESS).1)
    _ _ rfl rfl rfl (entriesFileOut_ext qc qd file p RECOMPRESS)
    hmaj hmin hidxmaj hidxmin
    (entriesFileOut_bounds qc qd file p RECOMPRESS) hsz

set_option maxRecDepth 1000000 in
/-- Witness for C3 at the concrete archive `c1File`: the Recompress output
carries the trailer, the hole bookkeeping, and a second pass skips. -/
theorem c3_recompress_trailer_witness :
    (getPackage? c1File RECOMPRESS = some c1OldPackage ∧
     (putPackage qfsCompress qfsDecompress c1File c1OldPackage
       RECOMPRESS).1.length < UMOD) ∧
    (readFile (putPackage qfsCompress qfsDecompress c1File c1OldPackage
          RECOMPRESS).1
        ((putPackage qfsCompress qfsDecompress c1File c1OldPackage
          RECOMPRESS).1.length - 16) 8 =
      encodeU32 ((putPackage qfsCompress qfsDecompress c1File c1OldPackage
          RECOMPRESS).1.length - 8) ++ encodeU32 8 ∧
    readFile (putPackage qfsCompress qfsDecompress c1File c1OldPackage
          RECOMPRESS).1
        ((putPackage qfsCompress qfsDecompress c1File c1OldPackage
          RECOMPRESS).1.length - 8) 8 =
      encodeU32 SIGNATURE ++
        encodeU32 (putPackage qfsCompress qfsDecompress c1File c1OldPackage
          RECOMPRESS).1.length ∧
    ∃ q, getPackage? (putPackage qfsCompress qfsDecompress c1File c1OldPackage
        RECOMPRESS).1 RECOMPRESS = some q ∧
      q.header.holeIndexEntryCount = 1 ∧ q.header.holeIndexSize = 8 ∧
      q.signature_in_package = true ∧ effectiveMode q RECOMPRESS = SKIP) :=
  ⟨⟨by decide, by decide⟩,
   c3_recompress_trailer qfsCompress qfsDecompress c1File RECOMPRESS
     c1OldPackage (by decide) (by decide)⟩

end Dbpf
